import Mathlib

/-!
Verification development for the Monitor Martins price-comparison robot
(`src/app.py`).  The Python source is shallowly embedded: Python floats are
modelled as exact rationals (`ℚ`), Python `None`-able values as `Option`,
dictionaries as association lists with later-update-wins lookup, rendered
HTML documents as a node tree, and the external effects (page rendering,
search, JSON parsing, the catalog file) as explicit oracle parameters.
-/

namespace Martins

/-! ### Character and digit helpers -/

/-- Numeric value of a list of ASCII digit characters read left to right,
as done by Python `float` on the integer / fraction parts of a literal. -/
def digitsVal (l : List Char) : ℕ :=
  l.foldl (fun a c => 10 * a + (c.toNat - 48)) 0

/-- The ASCII digit character for `d` (meaningful for `d < 10`). -/
def digitChar (d : ℕ) : Char := Char.ofNat (48 + d)

/-- `Char.isDigit` test, named to match the predicate used in the embedding. -/
def isDigitC (c : Char) : Bool := c.isDigit

/-- Python `float` literal parsing restricted to the character set that can
reach it in `clean_price` (digits and periods): accepts at most one period
and at least one digit, returning the exact decimal value. -/
def parseNum (l : List Char) : Option ℚ :=
  if (l.all fun c => c.isDigit || c = '.') && decide (l.count '.' ≤ 1) && l.any (fun c => c.isDigit) then
    some ((digitsVal (l.takeWhile fun c => c ≠ '.') : ℚ) +
      (digitsVal ((l.dropWhile fun c => c ≠ '.').drop 1) : ℚ) /
        10 ^ ((l.dropWhile fun c => c ≠ '.').drop 1).length)
  else
    none

/-- `clean_price` (src/app.py lines 94–110): strips everything but digits,
comma and period; with exactly one comma and at least one period, periods
are removed (thousands separators) and the comma becomes the decimal point,
otherwise commas become decimal points; unparseable text yields `none`. -/
def clean_price (s : String) : Option ℚ :=
  if s = "" then none
  else
    let cleaned := s.toList.filter (fun c => c.isDigit || c = ',' || c = '.')
    if cleaned = [] then none
    else
      let t :=
        if cleaned.count ',' = 1 && decide (1 ≤ cleaned.count '.') then
          (cleaned.filter (fun c => c ≠ '.')).map (fun c => if c = ',' then '.' else c)
        else
          cleaned.map (fun c => if c = ',' then '.' else c)
      parseNum t

/-- Models Python `float(str(x).replace(",", "."))` as used by
`_to_float_safe` on catalog cells: surrounding whitespace is ignored, an
optional sign is allowed, and the remainder must be a plain decimal literal
(exotic forms such as exponents, `inf` and `nan` are outside the modelled
input space). -/
def pyFloat (s : String) : Option ℚ :=
  match s.trim.toList.map (fun c => if c = ',' then '.' else c) with
  | '+' :: rest => parseNum rest
  | '-' :: rest => (parseNum rest).map Neg.neg
  | l => parseNum l

/-- Python `round(q, 2)` on the idealised decimal value: round half to even
at two decimal places. -/
def pyRound2 (q : ℚ) : ℚ :=
  let s := q * 100
  let f : ℤ := ⌊s⌋
  let r : ℚ := s - f
  let n : ℤ :=
    if r < 1 / 2 then f
    else if 1 / 2 < r then f + 1
    else if f % 2 = 0 then f else f + 1
  (n : ℚ) / 100

/-- Helper for `collapseWs`: the flag records whether the previous character
was whitespace (so further whitespace in the same run is dropped). -/
def collapseWsAux : Bool → List Char → List Char
  | _, [] => []
  | prevWs, c :: cs =>
    if c.isWhitespace then
      if prevWs then collapseWsAux true cs else ' ' :: collapseWsAux true cs
    else
      c :: collapseWsAux false cs

/-- Collapse every maximal run of whitespace into a single space
(Python `re.sub(r"\s+", " ", ·)`). -/
def collapseWs (l : List Char) : List Char := collapseWsAux false l

/-- `normalize` (src/app.py lines 91–92): strip, lowercase, collapse inner
whitespace runs to single spaces. -/
def normalize (txt : String) : String :=
  ⟨collapseWs (txt.trim.toList.map Char.toLower)⟩

/-! ### Python values (for JSON-LD data and mixed-type record fields) -/

/-- A Python value as produced by `json.loads` and stored in record
dictionaries: strings, numbers, booleans, `None`, lists and dicts. -/
inductive PyVal where
  | str (s : String)
  | num (q : ℚ)
  | bool (b : Bool)
  | null
  | list (xs : List PyVal)
  | dict (fields : List (String × PyVal))

/-- Python truthiness of a value (`bool(v)`); empty strings/lists/dicts,
zero, `False` and `None` are falsy. -/
def pyTruthy : PyVal → Bool
  | .str s => s ≠ ""
  | .num q => q ≠ 0
  | .bool b => b
  | .null => false
  | .list xs => !xs.isEmpty
  | .dict fs => !fs.isEmpty

/-- Truthiness of an optional value; `none` models an absent key /
Python `None`. -/
def truthyOpt (o : Option PyVal) : Bool :=
  match o with
  | none => false
  | some v => pyTruthy v

/-- Python `a or b` on optional values, as used in `x.get(k1) or x.get(k2)`
chains: keeps `a` when truthy, otherwise evaluates to `b`. -/
def pyOr (a b : Option PyVal) : Option PyVal :=
  if truthyOpt a then a else b

/-! ### Rendered documents (BeautifulSoup model)

A parsed document is a forest of nodes; an element node carries its tag
name, attribute list and children.  `select`-style queries walk elements in
document order (depth-first, preorder), exactly as soupsieve does. -/

/-- A DOM node: an element with tag, attributes and children, or a text
node (`NavigableString`). -/
inductive Node where
  | elem (tag : String) (attrs : List (String × String)) (children : List Node)
  | text (s : String)

/-- Children of a node (empty for text nodes). -/
def Node.childrenOf : Node → List Node
  | .elem _ _ cs => cs
  | .text _ => []

/-- Attribute lookup on an element node. -/
def Node.attr (n : Node) (k : String) : Option String :=
  match n with
  | .elem _ attrs _ => (attrs.find? (fun p => p.1 = k)).map Prod.snd
  | .text _ => none

/-- Tag name of a node (empty for text nodes). -/
def Node.tagOf : Node → String
  | .elem t _ _ => t
  | .text _ => ""

/-- The `class` attribute value of a node (empty string when absent). -/
def Node.className (n : Node) : String := (n.attr "class").getD ""

/-- The whitespace-separated class tokens of a node, for `.cls` selectors. -/
def Node.classTokens (n : Node) : List String :=
  (n.className.toList.splitOnP Char.isWhitespace).map (fun l => (⟨l⟩ : String)) |>.filter (· ≠ "")

/-- Whether `sub` occurs as a contiguous sublist of `hay`. -/
def containsSub (hay sub : List Char) : Bool :=
  match hay with
  | [] => sub.isEmpty
  | _ :: t => sub.isPrefixOf hay || containsSub t sub

/-- Whether a node's class attribute contains `sub` as a substring, for
CSS `[class*='sub']` selectors. -/
def Node.classContains (n : Node) (sub : String) : Bool :=
  containsSub n.className.toList sub.toList

mutual

/-- All element nodes of the subtree rooted at a node, in document order
(the node itself first when it is an element). -/
def elemsOf : Node → List Node
  | .text _ => []
  | .elem t a cs => .elem t a cs :: elemsOfList cs

/-- All element nodes of a forest, in document order. -/
def elemsOfList : List Node → List Node
  | [] => []
  | n :: ns => elemsOf n ++ elemsOfList ns

end

mutual

/-- All text-node strings of the subtree rooted at a node, in document
order (BeautifulSoup `strings`). -/
def stringsOf : Node → List String
  | .text s => [s]
  | .elem _ _ cs => stringsOfList cs

/-- All text-node strings of a forest, in document order. -/
def stringsOfList : List Node → List String
  | [] => []
  | n :: ns => stringsOf n ++ stringsOfList ns

end

mutual

/-- `get_text(strip=True)`: the concatenation of all descendant text-node
strings, each stripped of surrounding whitespace. -/
def getTextStrip : Node → String
  | .text s => s.trim
  | .elem _ _ cs => getTextStripList cs

/-- `get_text(strip=True)` over a forest. -/
def getTextStripList : List Node → String
  | [] => ""
  | n :: ns => getTextStrip n ++ getTextStripList ns

end

/-- BeautifulSoup `.string`: the string of the unique child when the node
chains down to a single text node, else `None`. -/
def nodeString : Node → Option String
  | .text s => some s
  | .elem _ _ [c] => nodeString c
  | .elem _ _ _ => none

/-- `soup.select_one(sel)` for a predicate: first matching element of the
document forest in document order. -/
def selectOne (p : Node → Bool) (doc : List Node) : Option Node :=
  (elemsOfList doc).find? p

/-- `soup.select(sel)` for a predicate: all matching elements in document
order. -/
def selectAll (p : Node → Bool) (doc : List Node) : List Node :=
  (elemsOfList doc).filter p

/-- `tag.select_one(sel)`: first matching descendant of an element
(the element itself is not considered). -/
def selectOneIn (p : Node → Bool) (n : Node) : Option Node :=
  (elemsOfList n.childrenOf).find? p

/-! ### JSON-LD extraction (src/app.py lines 122–136)

`json.loads` is Python standard library, external to the repository, so it
enters the model as an oracle `jloads : String → Option PyVal` (`none`
models a parse exception, which the source swallows with `continue`). -/

/-- Dictionary lookup with Python `dict.get` semantics on the merged
association list: the most recently updated binding wins, which the
`updLd`/`extract_from_json_ld` encoding realises by consing updates in
front. -/
def pyGet (d : List (String × PyVal)) (k : String) : Option PyVal :=
  (d.find? (fun p => p.1 = k)).map Prod.snd

/-- `data.update(item)`: bindings of `item` now shadow older ones. -/
def updLd (d item : List (String × PyVal)) : List (String × PyVal) :=
  item ++ d

/-- Whether a parsed block is a dict whose `@type` is `Product` or
`Offer` (`item.get("@type") in ("Product", "Offer")`). -/
def isProductOffer (fields : List (String × PyVal)) : Bool :=
  match pyGet fields "@type" with
  | some (.str t) => t = "Product" || t = "Offer"
  | _ => false

/-- The `<script type="application/ld+json">` elements of a document, in
document order. -/
def ldScripts (doc : List Node) : List Node :=
  selectAll (fun n => n.tagOf = "script" && n.attr "type" == some "application/ld+json") doc

/-- Merging step of `extract_from_json_ld` for the parse result of one
script tag: a list contributes each of its Product/Offer dict items in
order, a Product/Offer dict contributes itself, anything else nothing. -/
def ldUpdate (data : List (String × PyVal)) : Option PyVal → List (String × PyVal)
  | some (.list items) =>
      items.foldl
        (fun d it =>
          match it with
          | .dict fs => if isProductOffer fs then updLd d fs else d
          | _ => d)
        data
  | some (.dict fs) => if isProductOffer fs then updLd data fs else data
  | _ => data

/-- `extract_from_json_ld` (src/app.py lines 122–136): fold the parsed
Product/Offer blocks of every ld+json script over an initially empty
dict, each block's keys shadowing earlier ones. -/
def extract_from_json_ld (jloads : String → Option PyVal) (doc : List Node) :
    List (String × PyVal) :=
  (ldScripts doc).foldl
    (fun data tag => ldUpdate data (jloads ((nodeString tag).getD "\x7b\x7d")))
    []

/-! ### The EAN-in-text fallback (src/app.py lines 196–203) -/

/-- Python `\w` word characters (ASCII model). -/
def isWordChar (c : Char) : Bool := c.isAlphanum || c = '_'

/-- Whether `l` starts with the word `EAN` (case-insensitive) followed by a
word boundary; `prev` is the character just before `l`, if any. -/
def eanWordAt (prev : Option Char) (l : List Char) : Bool :=
  match l with
  | c1 :: c2 :: c3 :: rest =>
      c1.toLower = 'e' && c2.toLower = 'a' && c3.toLower = 'n' &&
      (match prev with | some p => !isWordChar p | none => true) &&
      (match rest with | r :: _ => !isWordChar r | [] => true)
  | _ => false

/-- Helper scanning all positions for `matchesEanWord`. -/
def eanScan (prev : Option Char) (l : List Char) : Bool :=
  match l with
  | [] => false
  | c :: cs => eanWordAt prev l || eanScan (some c) cs

/-- Whether a string matches `re.compile(r"\bEAN\b", re.IGNORECASE)`
(an unanchored search). -/
def matchesEanWord (s : String) : Bool := eanScan none s.toList

/-- Chops a digit run into the non-overlapping greedy matches of
`\d{8,14}`: take up to 14 digits while at least 8 remain.  `fuel` only
bounds the recursion and is chosen large enough at the call site. -/
def chunkEan (fuel : ℕ) (run : List Char) : List String :=
  match fuel with
  | 0 => []
  | f + 1 =>
      if 8 ≤ run.length then (⟨run.take 14⟩ : String) :: chunkEan f (run.drop 14)
      else []

/-- The maximal digit runs of a string, in order. -/
def digitRunsAux (cur : List Char) : List Char → List (List Char)
  | [] => if cur.isEmpty then [] else [cur.reverse]
  | c :: cs =>
      if c.isDigit then digitRunsAux (c :: cur) cs
      else if cur.isEmpty then digitRunsAux [] cs
      else cur.reverse :: digitRunsAux [] cs

/-- `re.findall(r"(\d{8,14})", t)`: greedy, non-overlapping, in order. -/
def findallEan (t : String) : List String :=
  (digitRunsAux [] t.toList).flatMap (fun run => chunkEan run.length run)

/-- The EAN-by-text fallback: over all text nodes matching `\bEAN\b`, the
first one containing a `\d{8,14}` match yields its first match. -/
def eanFromText (doc : List Node) : Option String :=
  ((stringsOfList doc).filter matchesEanWord).findSome?
    (fun t => (findallEan t).head?)

/-! ### Content extraction (`parse_product_detail`, src/app.py lines 168–235) -/

/-- Whether a node has `c` among its whitespace-separated class tokens
(CSS `.c` selector). -/
def Node.hasClassToken (n : Node) (c : String) : Bool :=
  n.classTokens.contains c

/-- One seller's offer: name and successfully normalized price. -/
structure SellerOffer where
  seller : String
  price : ℚ
deriving DecidableEq

/-- The extracted facts of one product page (the `data` dict built by
`parse_product_detail`). -/
structure ParsedProduct where
  produto : Option PyVal
  ean : Option PyVal
  sellers : List SellerOffer
  sku : String
  url : String

/-- The title element: `h1`, else `[data-testid='product-title']`, else
`h1[class*='title']` (src/app.py lines 181–183). -/
def titleEl (doc : List Node) : Option Node :=
  selectOne (fun n => n.tagOf = "h1") doc <|>
  selectOne (fun n => n.attr "data-testid" == some "product-title") doc <|>
  selectOne (fun n => n.tagOf = "h1" && n.classContains "title") doc

/-- Seller card elements: all `.seller-card`, or — only when there are
none — all `[data-seller], [class*='seller']` (src/app.py lines 206–208). -/
def sellerBlocks (doc : List Node) : List Node :=
  let b1 := selectAll (fun n => n.hasClassToken "seller-card") doc
  if b1.isEmpty then
    selectAll (fun n => (n.attr "data-seller").isSome || n.classContains "seller") doc
  else b1

/-- The seller-name element inside a card: `.seller-name`, else
`[data-seller-name]`, else `[class*='seller']` (src/app.py lines 211–213). -/
def sellerNameEl (b : Node) : Option Node :=
  selectOneIn (fun n => n.hasClassToken "seller-name") b <|>
  selectOneIn (fun n => (n.attr "data-seller-name").isSome) b <|>
  selectOneIn (fun n => n.classContains "seller") b

/-- The price element inside a card: `.seller-price`, else
`[data-seller-price]`, else `[class*='price']` (src/app.py lines 214–216). -/
def sellerPriceEl (b : Node) : Option Node :=
  selectOneIn (fun n => n.hasClassToken "seller-price") b <|>
  selectOneIn (fun n => (n.attr "data-seller-price").isSome) b <|>
  selectOneIn (fun n => n.classContains "price") b

/-- Processing of one seller card (src/app.py lines 210–223): name falls
back to `"Desconhecido"`; the card yields an offer only when its price
text normalizes. -/
def processBlock (b : Node) : Option SellerOffer :=
  let sellerName :=
    match sellerNameEl b with
    | some el => getTextStrip el
    | none => "Desconhecido"
  match sellerPriceEl b with
  | some el => (clean_price (getTextStrip el)).map (fun v => ⟨sellerName, v⟩)
  | none => none

/-- The page-level fallback price element
`.price, .sales-price, [class*='price']` (src/app.py line 227). -/
def pagePriceEl (doc : List Node) : Option Node :=
  selectOne
    (fun n => n.hasClassToken "price" || n.hasClassToken "sales-price" || n.classContains "price")
    doc

/-- The offer list extracted from a document: per-card offers, or — only
when no card produced an offer — a single `"Martins"` offer from the
page-level price element, when that price normalizes
(src/app.py lines 205–230). -/
def extractSellers (doc : List Node) : List SellerOffer :=
  let sellers := (sellerBlocks doc).filterMap processBlock
  if sellers.isEmpty then
    match pagePriceEl doc with
    | some el =>
        match clean_price (getTextStrip el) with
        | some v => [⟨"Martins", v⟩]
        | none => []
    | none => []
  else sellers

/-- `parse_product_detail` (src/app.py lines 168–235). -/
def parse_product_detail (jloads : String → Option PyVal) (doc : List Node)
    (url : String) : ParsedProduct :=
  let produto0 : Option PyVal := (titleEl doc).map (fun el => .str (getTextStrip el))
  let json_ld := extract_from_json_ld jloads doc
  let produto :=
    if !json_ld.isEmpty && !truthyOpt produto0 then pyGet json_ld "name" else produto0
  let ean0 : Option PyVal :=
    if !json_ld.isEmpty then
      pyOr (pyGet json_ld "gtin13") (pyOr (pyGet json_ld "gtin14") (pyGet json_ld "sku"))
    else none
  let ean :=
    if truthyOpt ean0 then ean0
    else
      match eanFromText doc with
      | some d => some (.str d)
      | none => ean0
  { produto := produto
    ean := ean
    sellers := extractSellers doc
    sku := (url.splitOn "/").getLastD ""
    url := url }

/-! ### Pricing strategy (src/app.py lines 237–264) -/

/-- Default of the `DELTA_GAP` environment constant (src/app.py line 17). -/
def DELTA_GAP : ℚ := 1 / 100

/-- Default of the `ALVO_SELLER` environment constant, already stripped
and lowercased as in src/app.py line 16. -/
def ALVO_SELLER : String := "foto nascimento"

/-- Stable ascending insertion of an offer: it goes before the first
element whose price is not smaller (so earlier-seen offers stay first on
ties). -/
def insertOfferAsc (o : SellerOffer) : List SellerOffer → List SellerOffer
  | [] => [o]
  | x :: xs => if x.price < o.price then x :: insertOfferAsc o xs else o :: x :: xs

/-- `sorted(·, key=lambda x: x["price"])`: stable ascending sort. -/
def sortOffers : List SellerOffer → List SellerOffer
  | [] => []
  | x :: xs => insertOfferAsc x (sortOffers xs)

/-- `calc_suggestion` (src/app.py lines 237–244), with the configured gap
as explicit parameter; returns the suggested price (if any) and the
comment. -/
def calc_suggestion (gap : ℚ) (cheapest_price : ℚ) (my_price : Option ℚ) :
    Option ℚ × String :=
  match my_price with
  | none => (none, "Sem preço atual informado. Defina seu preço para sugerirmos ajuste.")
  | some mp =>
      let alvo := pyRound2 (cheapest_price * (1 - gap))
      if alvo < mp then (some alvo, "Sugestão: cobrir o mais barato com 1% abaixo.")
      else (some mp, "Você já está competitivo (<= 1% do concorrente).")

/-- The extracted record together with the derived recommendation fields
added by `enrich_with_strategy`. -/
structure Enriched where
  produto : Option PyVal
  ean : Option PyVal
  sellers : List SellerOffer
  sku : String
  url : String
  mais_barato : Option SellerOffer
  sugestao_preco : Option ℚ
  comentario : String

/-- `enrich_with_strategy` (src/app.py lines 246–264), with the configured
gap and reference-competitor name as explicit parameters. -/
def enrich_with_strategy (gap : ℚ) (alvoSeller : String) (rec : ParsedProduct)
    (my_price : Option ℚ) : Enriched :=
  let sellers := if rec.sellers.isEmpty then [] else sortOffers rec.sellers
  match sellers with
  | [] =>
      { produto := rec.produto, ean := rec.ean, sellers := rec.sellers
        sku := rec.sku, url := rec.url
        mais_barato := none, sugestao_preco := none
        comentario := "Nenhum seller encontrado." }
  | cheapest :: _ =>
      let sc := calc_suggestion gap cheapest.price my_price
      let comentario :=
        if normalize cheapest.seller = alvoSeller then
          "Foto Nascimento é o mais barato. " ++ sc.2
        else sc.2
      { produto := rec.produto, ean := rec.ean, sellers := rec.sellers
        sku := rec.sku, url := rec.url
        mais_barato := some cheapest, sugestao_preco := sc.1
        comentario := comentario }

/-! ### Batch orchestration (src/app.py lines 266–376)

The external effects are oracle parameters: `fetch` models
`page.goto` + `page.content` + HTML parsing for one URL (`Except.error`
is a raised exception, caught inside `scrape_product_by_url`'s `try`),
`pageFault` models an exception raised by the page acquisition
(`page = get_page()`, which precedes the `try`) or by `page.close()`
(which runs in `finally`) around the fetch of a URL — such exceptions
escape `scrape_product_by_url`, `search` models
`find_first_product_url_from_search` (its `Except.error` models an
internal fault raised while resolving that item, caught by the per-item
`try` of the identifier/catalog endpoints), and the catalog file is
an `Except` input whose `error` is the missing-file `FileNotFoundError`.
Per-item results are dicts with varying keys, modelled as a record of
optional fields (`none` = key absent, serialized as `null`). -/

/-- One item of the endpoints' result sequence (the `ComparacaoOut`
field set; absent dict keys are `none`). -/
structure OutRec where
  sku : Option String := none
  ean : Option PyVal := none
  titulo : Option String := none
  url : Option String := none
  preco_atual : Option ℚ := none
  produto : Option PyVal := none
  sellers : Option (List SellerOffer) := none
  mais_barato : Option SellerOffer := none
  sugestao_preco : Option ℚ := none
  comentario : Option String := none
  erro : Option String := none

/-- The `try`-protected body of `scrape_product_by_url` (src/app.py lines
269–276): a fetch failure is caught and becomes a `{url, erro}` result;
otherwise the parsed and enriched record is returned. -/
def scrape_caught (jloads : String → Option PyVal)
    (fetch : String → Except String (List Node)) (gap : ℚ) (alvoSeller : String)
    (url : String) (my_price : Option ℚ) : OutRec :=
  match fetch url with
  | .error e => { url := some url, erro := some e }
  | .ok doc =>
      let er := enrich_with_strategy gap alvoSeller (parse_product_detail jloads doc url) my_price
      { sku := some er.sku, ean := er.ean, url := some er.url, produto := er.produto
        sellers := some er.sellers, mais_barato := er.mais_barato
        sugestao_preco := er.sugestao_preco, comentario := some er.comentario }

/-- `scrape_product_by_url` (src/app.py lines 266–278).  In the source
`page = get_page()` precedes the `try` and `page.close()` runs in
`finally`, so an exception raised by page acquisition or close escapes
the function instead of becoming a `{url, erro}` result;
`pageFault url = some e` models such an escaping exception around the
fetch of `url`, `none` a fault-free acquisition and close. -/
def scrape_product_by_url (jloads : String → Option PyVal)
    (pageFault : String → Option String)
    (fetch : String → Except String (List Node)) (gap : ℚ) (alvoSeller : String)
    (url : String) (my_price : Option ℚ) : Except String OutRec :=
  match pageFault url with
  | some e => .error e
  | none => .ok (scrape_caught jloads fetch gap alvoSeller url my_price)

/-- `POST /comparar_urls` (src/app.py lines 294–300): the loop has no
per-item `try`, so an exception escaping `scrape_product_by_url` (a page
acquisition/close fault) aborts the whole operation at that item. -/
def comparar_urls (jloads : String → Option PyVal)
    (pageFault : String → Option String)
    (fetch : String → Except String (List Node)) (gap : ℚ) (alvoSeller : String) :
    List String → Except String (List OutRec)
  | [] => .ok []
  | url :: rest =>
      match scrape_product_by_url jloads pageFault fetch gap alvoSeller url none with
      | .error e => .error e
      | .ok r =>
          match comparar_urls jloads pageFault fetch gap alvoSeller rest with
          | .error e => .error e
          | .ok rs => .ok (r :: rs)

/-- The per-item body of `comparar_por_eans` (src/app.py lines 305–315):
the whole body sits in a `try` whose `except` yields `{ean, erro}`, so
even an exception escaping `scrape_product_by_url` is caught here. -/
def processEan (jloads : String → Option PyVal)
    (search : String → Except String (Option String))
    (pageFault : String → Option String)
    (fetch : String → Except String (List Node)) (gap : ℚ) (alvoSeller : String)
    (ean : String) : OutRec :=
  match search ean with
  | .error e => { ean := some (.str ean), erro := some e }
  | .ok none => { ean := some (.str ean), erro := some "Produto não encontrado na busca." }
  | .ok (some prodUrl) =>
      match scrape_product_by_url jloads pageFault fetch gap alvoSeller prodUrl none with
      | .error e => { ean := some (.str ean), erro := some e }
      | .ok r => { r with ean := pyOr r.ean (some (.str ean)) }

/-- `POST /comparar_por_eans` (src/app.py lines 302–316). -/
def comparar_por_eans (jloads : String → Option PyVal)
    (search : String → Except String (Option String))
    (pageFault : String → Option String)
    (fetch : String → Except String (List Node)) (gap : ℚ) (alvoSeller : String)
    (eans : List String) : List OutRec :=
  eans.map (processEan jloads search pageFault fetch gap alvoSeller)

/-- One row of the semicolon-separated catalog file, after
`pd.read_csv(..., dtype=str).fillna("")`: the four consumed columns as
strings. -/
structure CatalogRow where
  ean : String
  preco_atual : String
  titulo : String
  sku : String

/-- The per-row body of `comparar_lista_interna` (src/app.py lines
333–374), including the blank-EAN short-circuit and the per-row
`try`/`except` (which also catches exceptions escaping
`scrape_product_by_url`). -/
def processRow (jloads : String → Option PyVal)
    (search : String → Except String (Option String))
    (pageFault : String → Option String)
    (fetch : String → Except String (List Node)) (gap : ℚ) (alvoSeller : String)
    (row : CatalogRow) : OutRec :=
  let ean := row.ean.trim
  let my_price := pyFloat row.preco_atual
  let titulo := row.titulo.trim
  let sku := row.sku.trim
  if ean = "" then
    { sku := some sku, titulo := some titulo, erro := some "EAN vazio" }
  else
    match search ean with
    | .error e =>
        { sku := some sku, ean := some (.str ean), titulo := some titulo
          preco_atual := my_price, erro := some e }
    | .ok none =>
        { sku := some sku, ean := some (.str ean), titulo := some titulo
          preco_atual := my_price, erro := some "Produto não encontrado na busca" }
    | .ok (some prodUrl) =>
        match scrape_product_by_url jloads pageFault fetch gap alvoSeller prodUrl my_price with
        | .error e =>
            { sku := some sku, ean := some (.str ean), titulo := some titulo
              preco_atual := my_price, erro := some e }
        | .ok r =>
            { r with sku := some sku, ean := pyOr r.ean (some (.str ean))
                     titulo := some titulo, preco_atual := my_price }

/-- `GET /comparar_lista_interna` (src/app.py lines 318–376): a missing
catalog file fails the whole operation (HTTP 400); otherwise every row
yields exactly one result. -/
def comparar_lista_interna (jloads : String → Option PyVal)
    (search : String → Except String (Option String))
    (pageFault : String → Option String)
    (fetch : String → Except String (List Node)) (gap : ℚ) (alvoSeller : String)
    (csv : Except String (List CatalogRow)) : Except String (List OutRec) :=
  match csv with
  | .error e => .error e
  | .ok rows => .ok (rows.map (processRow jloads search pageFault fetch gap alvoSeller))

/-! ### Textual rendering of prices (Python `str(float)`)

`clean_price` produces exact decimal fractions; `pyFormat` renders such a
value the way Python `str` renders the corresponding float: shortest
decimal digits, always keeping one fractional digit (`str(45.0) = "45.0"`,
`str(19.9) = "19.9"`). -/

/-- Big-endian decimal digit characters of `n`, accumulated into `acc`;
`fuel` bounds the recursion and is chosen large enough at call sites. -/
def natToCharsAux : ℕ → ℕ → List Char → List Char
  | 0, _, acc => acc
  | f + 1, n, acc =>
      if n < 10 then digitChar n :: acc
      else natToCharsAux f (n / 10) (digitChar (n % 10) :: acc)

/-- Big-endian decimal digit characters of `n` (never empty). -/
def natToChars (n : ℕ) : List Char := natToCharsAux (n + 1) n []

/-- The number of decimal digits needed after the point to express `q`
exactly: the least `k ≤ q.den` with `q * 10 ^ k` integral (`0` when no
such `k` exists, which cannot happen for decimal fractions). -/
def decExpLen (q : ℚ) : ℕ :=
  ((List.range (q.den + 1)).find? (fun k => (q * 10 ^ k).den = 1)).getD 0

/-- Python `str` of a nonnegative decimal fraction: integer digits, a
point, then the essential fractional digits zero-padded on the left
(`"0"` when the value is integral). -/
def pyFormat (q : ℚ) : String :=
  let k := decExpLen q
  let n := (q * 10 ^ k).num.toNat
  let ds := natToChars (n % 10 ^ k)
  let fp := if k = 0 then ['0'] else List.replicate (k - ds.length) '0' ++ ds
  ⟨natToChars (n / 10 ^ k) ++ '.' :: fp⟩

/-- The first offer attaining the minimal price of a list (ties go to the
earlier offer), the specification-level description of what sorting
stably and taking the head computes. -/
def firstMin : List SellerOffer → Option SellerOffer
  | [] => none
  | x :: xs =>
      match firstMin xs with
      | none => some x
      | some m => if m.price < x.price then some m else some x

/-- The §4.1 rule of the specification, written from its words: strip all
characters except digits, comma and period; with exactly one comma and at
least one period treat periods as thousands separators and the comma as
the decimal point, otherwise treat any comma as the decimal point; null on
empty or unparseable cleaned text. -/
def spec_normalize_price (s : String) : Option ℚ :=
  let cleaned := s.toList.filter (fun c => c.isDigit || c = ',' || c = '.')
  if cleaned.isEmpty then none
  else
    let t :=
      if cleaned.count ',' = 1 && decide (1 ≤ cleaned.count '.') then
        (cleaned.filter (fun c => c ≠ '.')).map (fun c => if c = ',' then '.' else c)
      else
        cleaned.map (fun c => if c = ',' then '.' else c)
    parseNum t

/-! ## Helper lemmas -/

/-- `parseNum` only produces nonnegative values (no sign character can
survive the cleaning, so prices are never negative). -/
theorem parseNum_nonneg {l : List Char} {v : ℚ} (h : parseNum l = some v) : 0 ≤ v := by
  unfold parseNum at h
  split at h
  · rw [Option.some.injEq] at h
    rw [← h]
    positivity
  · exact absurd h (by simp)

/-- Every `parseNum` value is a decimal fraction `N / 10 ^ m`. -/
theorem parseNum_decimal {l : List Char} {v : ℚ} (h : parseNum l = some v) :
    ∃ N m : ℕ, v = (N : ℚ) / 10 ^ m := by
  unfold parseNum at h
  split at h
  · rw [Option.some.injEq] at h
    refine ⟨digitsVal (l.takeWhile fun c => c ≠ '.') *
        10 ^ ((l.dropWhile fun c => c ≠ '.').drop 1).length +
        digitsVal ((l.dropWhile fun c => c ≠ '.').drop 1),
      ((l.dropWhile fun c => c ≠ '.').drop 1).length, ?_⟩
    rw [← h]
    push_cast
    field_simp
  · exact absurd h (by simp)

/-- `clean_price` values always come from `parseNum`. -/
theorem clean_price_parseNum {s : String} {v : ℚ} (h : clean_price s = some v) :
    ∃ t, parseNum t = some v := by
  unfold clean_price at h
  split at h
  · exact absurd h (by simp)
  · simp only [] at h
    split at h
    · exact absurd h (by simp)
    · split at h <;> exact ⟨_, h⟩

/-- Successfully normalized prices are nonnegative. -/
theorem clean_price_nonneg {s : String} {v : ℚ} (h : clean_price s = some v) : 0 ≤ v := by
  obtain ⟨t, ht⟩ := clean_price_parseNum h
  exact parseNum_nonneg ht

/-- Unfolding equation for `firstMin` on a cons cell. -/
theorem firstMin_cons (x : SellerOffer) (xs : List SellerOffer) :
    firstMin (x :: xs) =
      match firstMin xs with
      | none => some x
      | some m => if m.price < x.price then some m else some x := rfl

/-- Head of a stable insertion. -/
theorem head?_insertOfferAsc (o : SellerOffer) (l : List SellerOffer) :
    (insertOfferAsc o l).head? =
      some (match l.head? with
            | none => o
            | some y => if y.price < o.price then y else o) := by
  cases l with
  | nil => rfl
  | cons x xs =>
      unfold insertOfferAsc
      split <;> simp [*]

/-- The head of the stable ascending sort is the first offer attaining
the minimal price. -/
theorem head?_sortOffers (l : List SellerOffer) : (sortOffers l).head? = firstMin l := by
  induction l with
  | nil => rfl
  | cons x xs ih =>
      rw [sortOffers, head?_insertOfferAsc, ih, firstMin_cons]
      cases hx : firstMin xs with
      | none => simp
      | some m =>
          simp only []
          split <;> simp

/-- `firstMin` is `none` exactly on the empty list. -/
theorem firstMin_eq_none {l : List SellerOffer} : firstMin l = none ↔ l = [] := by
  cases l with
  | nil => simp [firstMin]
  | cons x xs =>
      rw [firstMin_cons]
      cases hx : firstMin xs with
      | none => simp
      | some m =>
          simp only []
          split <;> simp

/-- An insertion never produces the empty list. -/
theorem insertOfferAsc_ne_nil (o : SellerOffer) (l : List SellerOffer) :
    insertOfferAsc o l ≠ [] := by
  cases l with
  | nil => simp [insertOfferAsc]
  | cons x xs =>
      unfold insertOfferAsc
      split <;> simp

/-- The first minimum belongs to the list. -/
theorem firstMin_mem : ∀ {l : List SellerOffer} {o : SellerOffer},
    firstMin l = some o → o ∈ l := by
  intro l
  induction l with
  | nil => intro o h; simp [firstMin] at h
  | cons x xs ih =>
      intro o h
      rw [firstMin_cons] at h
      cases hx : firstMin xs with
      | none =>
          rw [hx] at h
          simp at h
          simp [h]
      | some m =>
          rw [hx] at h
          simp only [] at h
          split at h
          · simp at h
            exact List.mem_cons_of_mem x (h ▸ ih hx)
          · simp at h
            simp [h]

/-- The first minimum has minimal price. -/
theorem firstMin_le : ∀ {l : List SellerOffer} {o : SellerOffer},
    firstMin l = some o → ∀ y ∈ l, o.price ≤ y.price := by
  intro l
  induction l with
  | nil => intro o h; simp [firstMin] at h
  | cons x xs ih =>
      intro o h y hy
      rw [firstMin_cons] at h
      cases hx : firstMin xs with
      | none =>
          rw [hx] at h
          simp at h
          rcases List.mem_cons.mp hy with hyx | hyxs
          · simp [← h, hyx]
          · exact absurd (firstMin_eq_none.mp hx ▸ hyxs) (List.not_mem_nil y)
      | some m =>
          rw [hx] at h
          simp only [] at h
          split at h
          · simp at h
            rcases List.mem_cons.mp hy with hyx | hyxs
            · rw [← h, hyx]
              exact le_of_lt (by assumption)
            · exact h ▸ ih hx y hyxs
          · simp at h
            rcases List.mem_cons.mp hy with hyx | hyxs
            · simp [← h, hyx]
            · calc o.price = x.price := by rw [← h]
                _ ≤ m.price := le_of_not_lt (by assumption)
                _ ≤ y.price := ih hx y hyxs

/-- The first minimum is the first offer attaining the minimum: everything
before it is strictly more expensive. -/
theorem firstMin_first : ∀ {l : List SellerOffer} {o : SellerOffer},
    firstMin l = some o →
    ∃ l₁ l₂, l = l₁ ++ o :: l₂ ∧ ∀ y ∈ l₁, o.price < y.price := by
  intro l
  induction l with
  | nil => intro o h; simp [firstMin] at h
  | cons x xs ih =>
      intro o h
      rw [firstMin_cons] at h
      cases hx : firstMin xs with
      | none =>
          rw [hx] at h
          simp at h
          exact ⟨[], xs, by simp [h], by simp⟩
      | some m =>
          rw [hx] at h
          simp only [] at h
          split at h
          · simp at h
            obtain ⟨l₁, l₂, hsplit, hlt⟩ := ih hx
            refine ⟨x :: l₁, l₂, by simp [hsplit, h], ?_⟩
            intro y hy
            rcases List.mem_cons.mp hy with hyx | hyl
            · rw [← h, hyx]
              assumption
            · exact h ▸ hlt y hyl
          · simp at h
            exact ⟨[], xs, by simp [h], by simp⟩

/-- Sorting returns the empty list only for the empty list. -/
theorem sortOffers_eq_nil {l : List SellerOffer} (h : sortOffers l = []) : l = [] := by
  cases l with
  | nil => rfl
  | cons x xs => exact absurd h (insertOfferAsc_ne_nil x (sortOffers xs))

/-- `enrich_with_strategy` on a record without offers. -/
theorem enrich_nil (gap : ℚ) (alvo : String) (rec : ParsedProduct) (p : Option ℚ)
    (h : rec.sellers = []) :
    enrich_with_strategy gap alvo rec p =
      { produto := rec.produto, ean := rec.ean, sellers := rec.sellers
        sku := rec.sku, url := rec.url
        mais_barato := none, sugestao_preco := none
        comentario := "Nenhum seller encontrado." } := by
  unfold enrich_with_strategy
  simp [h]

/-- `enrich_with_strategy` on a record whose sorted offers start with
`c`. -/
theorem enrich_cons (gap : ℚ) (alvo : String) (rec : ParsedProduct) (p : Option ℚ)
    {c : SellerOffer} {rest : List SellerOffer} (h : sortOffers rec.sellers = c :: rest) :
    enrich_with_strategy gap alvo rec p =
      { produto := rec.produto, ean := rec.ean, sellers := rec.sellers
        sku := rec.sku, url := rec.url
        mais_barato := some c
        sugestao_preco := (calc_suggestion gap c.price p).1
        comentario :=
          if normalize c.seller = alvo then
            "Foto Nascimento é o mais barato. " ++ (calc_suggestion gap c.price p).2
          else (calc_suggestion gap c.price p).2 } := by
  have hne : rec.sellers.isEmpty = false := by
    rcases hsl : rec.sellers with _ | ⟨a, as⟩
    · rw [hsl] at h
      simp [sortOffers] at h
    · simp
  unfold enrich_with_strategy
  rw [hne]
  simp only [Bool.false_eq_true, if_false, h]

/-! ## Claims -/

/-- C1: the pricing recommendation sorts offers ascending by price with
ties broken by first-seen order; an empty offer set yields no cheapest
offer, no suggestion and the NO_OFFERS comment; otherwise, with
`target = round(cheapest * (1 - gap), 2)`, a missing own price yields no
suggestion (NO_OWN_PRICE), an own price above target yields the target
(UNDERCUT_REQUIRED), and otherwise the own price is kept
(ALREADY_COMPETITIVE).  Concretely, for offers [(A, 100), (B, 90)] and
gap 0.01 the cheapest is B at 90, the target is 89.10, own price 95
yields 89.10, own price 85 yields 85 and a missing own price yields no
suggestion; on a tie the first-seen offer wins. -/
theorem c1_pricing_recommendation :
    (∀ (gap : ℚ) (alvo : String) (rec : ParsedProduct) (p : Option ℚ),
      (rec.sellers = [] →
        (enrich_with_strategy gap alvo rec p).mais_barato = none ∧
        (enrich_with_strategy gap alvo rec p).sugestao_preco = none ∧
        (enrich_with_strategy gap alvo rec p).comentario = "Nenhum seller encontrado.") ∧
      ((enrich_with_strategy gap alvo rec p).mais_barato = firstMin rec.sellers) ∧
      (∀ o, firstMin rec.sellers = some o →
        o ∈ rec.sellers ∧
        (∀ y ∈ rec.sellers, o.price ≤ y.price) ∧
        (∃ l₁ l₂, rec.sellers = l₁ ++ o :: l₂ ∧ ∀ y ∈ l₁, o.price < y.price) ∧
        (p = none → (enrich_with_strategy gap alvo rec p).sugestao_preco = none) ∧
        (∀ mp, p = some mp →
          (enrich_with_strategy gap alvo rec p).sugestao_preco =
            some (if pyRound2 (o.price * (1 - gap)) < mp
                  then pyRound2 (o.price * (1 - gap)) else mp))))
    ∧ pyRound2 (90 * (1 - DELTA_GAP)) = 891 / 10
    ∧ (enrich_with_strategy DELTA_GAP ALVO_SELLER
          ⟨none, none, [⟨"A", 100⟩, ⟨"B", 90⟩], "", ""⟩ (some 95)).mais_barato = some ⟨"B", 90⟩
    ∧ (enrich_with_strategy DELTA_GAP ALVO_SELLER
          ⟨none, none, [⟨"A", 100⟩, ⟨"B", 90⟩], "", ""⟩ (some 95)).sugestao_preco = some (891 / 10)
    ∧ (enrich_with_strategy DELTA_GAP ALVO_SELLER
          ⟨none, none, [⟨"A", 100⟩, ⟨"B", 90⟩], "", ""⟩ (some 95)).comentario =
        "Sugestão: cobrir o mais barato com 1% abaixo."
    ∧ (enrich_with_strategy DELTA_GAP ALVO_SELLER
          ⟨none, none, [⟨"A", 100⟩, ⟨"B", 90⟩], "", ""⟩ (some 85)).sugestao_preco = some 85
    ∧ (enrich_with_strategy DELTA_GAP ALVO_SELLER
          ⟨none, none, [⟨"A", 100⟩, ⟨"B", 90⟩], "", ""⟩ (some 85)).comentario =
        "Você já está competitivo (<= 1% do concorrente)."
    ∧ (enrich_with_strategy DELTA_GAP ALVO_SELLER
          ⟨none, none, [⟨"A", 100⟩, ⟨"B", 90⟩], "", ""⟩ none).sugestao_preco = none
    ∧ (enrich_with_strategy DELTA_GAP ALVO_SELLER
          ⟨none, none, [⟨"A", 100⟩, ⟨"B", 90⟩], "", ""⟩ none).comentario =
        "Sem preço atual informado. Defina seu preço para sugerirmos ajuste."
    ∧ (enrich_with_strategy DELTA_GAP ALVO_SELLER
          ⟨none, none, [⟨"X", 90⟩, ⟨"Y", 90⟩], "", ""⟩ none).mais_barato = some ⟨"X", 90⟩ := by
  refine ⟨?_, ?_, ?_, ?_, ?_, ?_, ?_, ?_, ?_, ?_⟩
  · intro gap alvo rec p
    refine ⟨?_, ?_, ?_⟩
    · intro h
      rw [enrich_nil gap alvo rec p h]
      exact ⟨rfl, rfl, rfl⟩
    · cases hs : sortOffers rec.sellers with
      | nil =>
          have h := sortOffers_eq_nil hs
          rw [enrich_nil gap alvo rec p h, h]
          rfl
      | cons c rest =>
          rw [enrich_cons gap alvo rec p hs, ← head?_sortOffers, hs]
          rfl
    · intro o ho
      have hhead : (sortOffers rec.sellers).head? = some o := by
        rw [head?_sortOffers, ho]
      cases hs : sortOffers rec.sellers with
      | nil => rw [hs] at hhead; exact absurd hhead (by simp)
      | cons c rest =>
          rw [hs] at hhead
          simp at hhead
          subst hhead
          refine ⟨firstMin_mem ho, firstMin_le ho, firstMin_first ho, ?_, ?_⟩
          · intro hp
            rw [enrich_cons gap alvo rec p hs, hp]
            rfl
          · intro mp hp
            rw [enrich_cons gap alvo rec p hs, hp]
            show (calc_suggestion gap c.price (some mp)).1 = _
            unfold calc_suggestion
            simp only []
            split <;> simp
  · with_unfolding_all rfl
  · with_unfolding_all rfl
  · with_unfolding_all rfl
  · with_unfolding_all rfl
  · with_unfolding_all rfl
  · with_unfolding_all rfl
  · with_unfolding_all rfl
  · with_unfolding_all rfl
  · with_unfolding_all rfl

/-- Witness for C1: the theorem applied to a record without offers and to
the concrete two-offer record. -/
theorem c1_pricing_recommendation_witness :
    (enrich_with_strategy DELTA_GAP ALVO_SELLER ⟨none, none, [], "", ""⟩ none).mais_barato = none ∧
    (enrich_with_strategy DELTA_GAP ALVO_SELLER ⟨none, none, [], "", ""⟩ none).sugestao_preco = none ∧
    (⟨"B", 90⟩ : SellerOffer) ∈ [(⟨"A", 100⟩ : SellerOffer), ⟨"B", 90⟩] := by
  have h := (c1_pricing_recommendation.1 DELTA_GAP ALVO_SELLER ⟨none, none, [], "", ""⟩ none).1 rfl
  have h2 := (c1_pricing_recommendation.1 DELTA_GAP ALVO_SELLER
      ⟨none, none, [⟨"A", 100⟩, ⟨"B", 90⟩], "", ""⟩ none).2.2 ⟨"B", 90⟩ (by with_unfolding_all rfl)
  exact ⟨h.1, h.2.1, h2.1⟩

/-- C2: `clean_price` never raises (it is a total function to
`Option ℚ`), and it implements exactly the §4.1 rule written from the
specification's words (`spec_normalize_price`): strip to digits, comma
and period; one comma plus at least one period means periods are
thousands separators and the comma the decimal point, otherwise commas
become decimal points; empty or unparseable cleaned text gives `none`.
Concretely `"1.234,56" ↦ 1234.56`, `"19,90" ↦ 19.90`,
`"R$ 45.00" ↦ 45.00`, `"" ↦ none`, `"abc" ↦ none`. -/
theorem c2_normalize_price :
    (∀ s : String, clean_price s = spec_normalize_price s)
    ∧ clean_price "1.234,56" = some (123456 / 100)
    ∧ clean_price "19,90" = some (199 / 10)
    ∧ clean_price "R$ 45.00" = some 45
    ∧ clean_price "" = none
    ∧ clean_price "abc" = none := by
  refine ⟨?_, by with_unfolding_all rfl, by with_unfolding_all rfl,
    by with_unfolding_all rfl, by with_unfolding_all rfl, by with_unfolding_all rfl⟩
  intro s
  by_cases hs : s = ""
  · subst hs
    with_unfolding_all rfl
  · unfold clean_price spec_normalize_price
    rw [if_neg hs]
    simp only [List.isEmpty_iff]

/-- C3 counterexample: a page-acquisition fault while processing the
second of three URLs aborts the whole `/comparar_urls` operation — the
result is a single whole-operation error instead of a three-item result
sequence, and it is not the missing-catalog-file error — because
`page = get_page()` sits before the `try` in `scrape_product_by_url`
(src/app.py line 268), `page.close()` runs in `finally` (line 278), and
the URL loop (lines 294–300) has no per-item `try`. -/
theorem c3_counterexample :
    comparar_urls (fun _ => none) (fun u => if u = "U2" then some "page crash" else none)
      (fun _ => .ok []) DELTA_GAP ALVO_SELLER ["U1", "U2", "U3"]
      = .error "page crash" := by
  with_unfolding_all rfl

/-- C3 (amended): the identifier and catalog batch operations return one
result per input, in input order, with the i-th result depending only on
the i-th reference; any fault in an item's body — a resolution fault, a
fetch fault, or a page-acquisition/close fault escaping
`scrape_product_by_url` — is caught at their per-item boundary, and the
catalog operation's only whole-operation failure is the missing-file
error.  The URL operation isolates only the faults caught inside
`scrape_product_by_url`'s `try` (fetch/parse): when no acquisition/close
fault occurs it returns one result per URL in order, but an
acquisition/close fault aborts the whole operation (counterexample).
Concretely, for three identifiers where resolution of the second raises,
and for three identifiers where page acquisition for the second's product
page raises, the result has length 3, item 2 is a failure carrying its
identifier and error text, and items 1 and 3 are unaffected. -/
theorem c3_batch_isolation :
    (∀ (jl : String → Option PyVal) (se : String → Except String (Option String))
        (pf : String → Option String)
        (f : String → Except String (List Node)) (g : ℚ) (a : String)
        (eans : List String) (rows : List CatalogRow) (e : String),
      (comparar_por_eans jl se pf f g a eans).length = eans.length
      ∧ (∀ i : ℕ, (comparar_por_eans jl se pf f g a eans)[i]? =
          (eans[i]?).map (processEan jl se pf f g a))
      ∧ comparar_lista_interna jl se pf f g a (.error e) = .error e
      ∧ comparar_lista_interna jl se pf f g a (.ok rows) =
          .ok (rows.map (processRow jl se pf f g a))
      ∧ (rows.map (processRow jl se pf f g a)).length = rows.length)
    ∧ (∀ (jl : String → Option PyVal) (pf : String → Option String)
        (f : String → Except String (List Node)) (g : ℚ) (a : String)
        (urls : List String),
        (∀ u ∈ urls, pf u = none) →
        comparar_urls jl pf f g a urls =
          .ok (urls.map (fun u => scrape_caught jl f g a u none)))
    ∧ ((comparar_por_eans (fun _ => none)
          (fun x => if x = "E2" then .error "boom"
                    else .ok (some ("https://www.martinsatacado.com.br/produto/" ++ x)))
          (fun _ => none)
          (fun _ => .ok [Node.elem "h1" [] [Node.text "T"]])
          DELTA_GAP ALVO_SELLER ["E1", "E2", "E3"]).map (fun r => (r.ean, r.erro))
        = [(some (.str "E1"), none), (some (.str "E2"), some "boom"),
           (some (.str "E3"), none)])
    ∧ ((comparar_por_eans (fun _ => none)
          (fun x => .ok (some ("p" ++ x)))
          (fun u => if u = "pE2" then some "page boom" else none)
          (fun _ => .ok [Node.elem "h1" [] [Node.text "T"]])
          DELTA_GAP ALVO_SELLER ["E1", "E2", "E3"]).map (fun r => (r.ean, r.erro))
        = [(some (.str "E1"), none), (some (.str "E2"), some "page boom"),
           (some (.str "E3"), none)]) := by
  refine ⟨?_, ?_, by with_unfolding_all rfl, by with_unfolding_all rfl⟩
  · intro jl se pf f g a eans rows e
    refine ⟨by simp [comparar_por_eans], ?_, rfl, rfl, by simp⟩
    intro i
    simp [comparar_por_eans]
  · intro jl pf f g a urls
    induction urls with
    | nil => intro _; rfl
    | cons u us ih =>
        intro hpf
        have hu : pf u = none := hpf u (by simp)
        have hstep : comparar_urls jl pf f g a (u :: us) =
            (match scrape_product_by_url jl pf f g a u none with
            | .error e => .error e
            | .ok r =>
                match comparar_urls jl pf f g a us with
                | .error e => .error e
                | .ok rs => .ok (r :: rs)) := rfl
        have hscrape : scrape_product_by_url jl pf f g a u none =
            .ok (scrape_caught jl f g a u none) := by
          unfold scrape_product_by_url
          rw [hu]
        rw [hstep, hscrape, ih (fun x hx => hpf x (List.mem_cons_of_mem u hx))]
        simp

/-- Witness for C3: the URL conjunct applied with a fault-free
page-acquisition oracle at a concrete URL list. -/
theorem c3_batch_isolation_witness :
    comparar_urls (fun _ => none) (fun _ => none) (fun _ => .ok [])
        DELTA_GAP ALVO_SELLER ["W1"]
      = .ok [scrape_caught (fun _ => none) (fun _ => .ok [])
          DELTA_GAP ALVO_SELLER "W1" none] := by
  have h := c3_batch_isolation.2.1 (fun _ => none) (fun _ => none) (fun _ => .ok [])
      DELTA_GAP ALVO_SELLER ["W1"] (by intro u hu; rfl)
  exact h

/-- C4 counterexample: when the reference competitor is the cheapest
seller and the own price is missing, the code still prepends the
reference-competitor marker to the NO_OWN_PRICE comment, so the
reference-competitor rationale category is NOT mutually exclusive with
the NO_OWN_PRICE case, contrary to the claim. -/
theorem c4_counterexample :
    (enrich_with_strategy DELTA_GAP ALVO_SELLER
        ⟨none, none, [⟨"Foto Nascimento", 10⟩], "", ""⟩ none).sugestao_preco = none
    ∧ (enrich_with_strategy DELTA_GAP ALVO_SELLER
        ⟨none, none, [⟨"Foto Nascimento", 10⟩], "", ""⟩ none).comentario =
      "Foto Nascimento é o mais barato. Sem preço atual informado. Defina seu preço para sugerirmos ajuste."
    ∧ ("Foto Nascimento é o mais barato. Sem preço atual informado. Defina seu preço para sugerirmos ajuste."
        ≠ "Sem preço atual informado. Defina seu preço para sugerirmos ajuste.") := by
  refine ⟨by with_unfolding_all rfl, by with_unfolding_all rfl, by decide⟩

/-- C4 (amended): whether the cheapest seller's normalized name equals
the configured reference-competitor name changes only the human-readable
comment (the cheapest offer and the suggested price are identical for any
two configured names); the reference-competitor marker never occurs in
the NO_OFFERS case, but it IS prepended to the comment in the
NO_OWN_PRICE case (and the UNDERCUT/COMPETITIVE cases) whenever the
cheapest seller matches. -/
theorem c4_reference_competitor :
    ∀ (gap : ℚ) (a1 a2 : String) (rec : ParsedProduct) (p : Option ℚ),
      ((enrich_with_strategy gap a1 rec p).mais_barato =
        (enrich_with_strategy gap a2 rec p).mais_barato)
      ∧ ((enrich_with_strategy gap a1 rec p).sugestao_preco =
        (enrich_with_strategy gap a2 rec p).sugestao_preco)
      ∧ (rec.sellers = [] →
          (enrich_with_strategy gap a1 rec p).comentario = "Nenhum seller encontrado.")
      ∧ (∀ o, firstMin rec.sellers = some o →
          (enrich_with_strategy gap a1 rec p).comentario =
            (if normalize o.seller = a1 then
              "Foto Nascimento é o mais barato. " ++ (calc_suggestion gap o.price p).2
             else (calc_suggestion gap o.price p).2)) := by
  intro gap a1 a2 rec p
  refine ⟨?_, ?_, ?_, ?_⟩
  · cases hs : sortOffers rec.sellers with
    | nil =>
        have h := sortOffers_eq_nil hs
        rw [enrich_nil gap a1 rec p h, enrich_nil gap a2 rec p h]
    | cons c rest =>
        rw [enrich_cons gap a1 rec p hs, enrich_cons gap a2 rec p hs]
  · cases hs : sortOffers rec.sellers with
    | nil =>
        have h := sortOffers_eq_nil hs
        rw [enrich_nil gap a1 rec p h, enrich_nil gap a2 rec p h]
    | cons c rest =>
        rw [enrich_cons gap a1 rec p hs, enrich_cons gap a2 rec p hs]
  · intro h
    rw [enrich_nil gap a1 rec p h]
  · intro o ho
    have hhead : (sortOffers rec.sellers).head? = some o := by
      rw [head?_sortOffers, ho]
    cases hs : sortOffers rec.sellers with
    | nil => rw [hs] at hhead; exact absurd hhead (by simp)
    | cons c rest =>
        rw [hs] at hhead
        simp at hhead
        subst hhead
        rw [enrich_cons gap a1 rec p hs]

/-- Witness for C4: the amended theorem applied to a record without
offers and to a record whose cheapest seller is the reference
competitor. -/
theorem c4_reference_competitor_witness :
    (enrich_with_strategy DELTA_GAP ALVO_SELLER ⟨none, none, [], "", ""⟩ none).comentario =
      "Nenhum seller encontrado."
    ∧ (enrich_with_strategy DELTA_GAP ALVO_SELLER
        ⟨none, none, [⟨"Foto Nascimento", 10⟩], "", ""⟩ (some 20)).comentario =
      (if normalize "Foto Nascimento" = ALVO_SELLER then
        "Foto Nascimento é o mais barato. " ++ (calc_suggestion DELTA_GAP 10 (some 20)).2
       else (calc_suggestion DELTA_GAP 10 (some 20)).2) := by
  refine ⟨(c4_reference_competitor DELTA_GAP ALVO_SELLER "x"
      ⟨none, none, [], "", ""⟩ none).2.2.1 rfl, ?_⟩
  exact (c4_reference_competitor DELTA_GAP ALVO_SELLER "x"
      ⟨none, none, [⟨"Foto Nascimento", 10⟩], "", ""⟩ (some 20)).2.2.2
    ⟨"Foto Nascimento", 10⟩ (by with_unfolding_all rfl)

/-- Element traversal distributes over forest concatenation. -/
theorem elemsOfList_append (l1 l2 : List Node) :
    elemsOfList (l1 ++ l2) = elemsOfList l1 ++ elemsOfList l2 := by
  induction l1 with
  | nil => rfl
  | cons n ns ih => simp [elemsOfList, ih]

/-- Folds whose step conses its contribution in front of the accumulator
factor through the empty accumulator. -/
theorem foldl_acc_append {β : Type} (f : List (String × PyVal) → β → List (String × PyVal))
    (hf : ∀ d x, f d x = f [] x ++ d) :
    ∀ (l : List β) (d : List (String × PyVal)), l.foldl f d = l.foldl f [] ++ d := by
  intro l
  induction l with
  | nil => intro d; simp
  | cons x xs ih =>
      intro d
      show xs.foldl f (f d x) = (x :: xs).foldl f [] ++ d
      rw [ih (f d x), hf d x, show (x :: xs).foldl f [] = xs.foldl f (f [] x) from rfl,
        ih (f [] x), List.append_assoc]

/-- One `ldUpdate` step conses its contribution in front. -/
theorem ldUpdate_shift (d : List (String × PyVal)) (o : Option PyVal) :
    ldUpdate d o = ldUpdate [] o ++ d := by
  cases o with
  | none => rfl
  | some v =>
      cases v with
      | list items =>
          show items.foldl _ d = items.foldl _ [] ++ d
          refine foldl_acc_append _ ?_ items d
          intro d x
          cases x <;> simp [updLd]
          split <;> simp [updLd]
      | dict fs =>
          show (if isProductOffer fs then updLd d fs else d) = _
          split <;> simp [updLd, ldUpdate, *]
      | str s => rfl
      | num q => rfl
      | bool b => rfl
      | null => rfl

/-- The JSON-LD merge processes scripts left to right, later contributions
shadowing earlier ones (they end up in front of the association list). -/
theorem extract_from_json_ld_append (jl : String → Option PyVal) (d1 d2 : List Node) :
    extract_from_json_ld jl (d1 ++ d2) =
      updLd (extract_from_json_ld jl d1) (extract_from_json_ld jl d2) := by
  unfold extract_from_json_ld ldScripts selectAll
  rw [elemsOfList_append, List.filter_append, List.foldl_append]
  exact foldl_acc_append
    (fun data tag => ldUpdate data (jl ((nodeString tag).getD "\x7b\x7d")))
    (fun d x => ldUpdate_shift d (jl ((nodeString x).getD "\x7b\x7d"))) _ _

/-- Projection of the extracted `ean` field (definitional). -/
theorem parse_ean_eq (jl : String → Option PyVal) (doc : List Node) (url : String) :
    (parse_product_detail jl doc url).ean =
      (if truthyOpt (if !(extract_from_json_ld jl doc).isEmpty then
            pyOr (pyGet (extract_from_json_ld jl doc) "gtin13")
              (pyOr (pyGet (extract_from_json_ld jl doc) "gtin14")
                (pyGet (extract_from_json_ld jl doc) "sku"))
          else none) then
        (if !(extract_from_json_ld jl doc).isEmpty then
            pyOr (pyGet (extract_from_json_ld jl doc) "gtin13")
              (pyOr (pyGet (extract_from_json_ld jl doc) "gtin14")
                (pyGet (extract_from_json_ld jl doc) "sku"))
          else none)
       else
        match eanFromText doc with
        | some d => some (.str d)
        | none =>
            (if !(extract_from_json_ld jl doc).isEmpty then
              pyOr (pyGet (extract_from_json_ld jl doc) "gtin13")
                (pyOr (pyGet (extract_from_json_ld jl doc) "gtin14")
                  (pyGet (extract_from_json_ld jl doc) "sku"))
            else none)) := rfl

/-- Truthy lookups only happen in nonempty dicts. -/
theorem truthyOpt_pyGet_ne_nil {d : List (String × PyVal)} {k : String}
    (h : truthyOpt (pyGet d k) = true) : d.isEmpty = false := by
  cases d with
  | nil => simp [pyGet, truthyOpt] at h
  | cons p ps => simp

/-- C5 counterexample: with two Product blocks both defining `name`, the
merged value is the one of the LATER block, so earlier occurrences do not
win on conflicting keys. -/
theorem c5_counterexample :
    pyGet (extract_from_json_ld
        (fun s => if s = "A" then some (.dict [("@type", PyVal.str "Product"), ("name", PyVal.str "NameA")])
                  else if s = "B" then some (.dict [("@type", PyVal.str "Product"), ("name", PyVal.str "NameB")])
                  else none)
        [Node.elem "script" [("type", "application/ld+json")] [Node.text "A"],
         Node.elem "script" [("type", "application/ld+json")] [Node.text "B"]]) "name"
      = some (PyVal.str "NameB")
    ∧ PyVal.str "NameB" ≠ PyVal.str "NameA" := by
  refine ⟨by with_unfolding_all rfl, ?_⟩
  intro h
  injection h with h2
  exact absurd h2 (by decide)

/-- C5 (amended): multiple JSON-LD Product/Offer blocks are merged left to
right with LATER occurrences winning on conflicting keys (the merge over a
split script list shadows the left part with the right part, and lookup in
an updated dict prefers the update); the identifier extracted from the
merged data prefers `gtin13`, then `gtin14`, then `sku`. -/
theorem c5_json_ld_merge :
    (∀ (jl : String → Option PyVal) (d1 d2 : List Node),
      extract_from_json_ld jl (d1 ++ d2) =
        updLd (extract_from_json_ld jl d1) (extract_from_json_ld jl d2))
    ∧ (∀ (d1 d2 : List (String × PyVal)) (k : String),
        pyGet (updLd d1 d2) k = (pyGet d2 k <|> pyGet d1 k))
    ∧ (∀ (jl : String → Option PyVal) (doc : List Node) (url : String),
        (truthyOpt (pyGet (extract_from_json_ld jl doc) "gtin13") = true →
          (parse_product_detail jl doc url).ean =
            pyGet (extract_from_json_ld jl doc) "gtin13")
        ∧ (truthyOpt (pyGet (extract_from_json_ld jl doc) "gtin13") = false →
            truthyOpt (pyGet (extract_from_json_ld jl doc) "gtin14") = true →
            (parse_product_detail jl doc url).ean =
              pyGet (extract_from_json_ld jl doc) "gtin14")
        ∧ (truthyOpt (pyGet (extract_from_json_ld jl doc) "gtin13") = false →
            truthyOpt (pyGet (extract_from_json_ld jl doc) "gtin14") = false →
            truthyOpt (pyGet (extract_from_json_ld jl doc) "sku") = true →
            (parse_product_detail jl doc url).ean =
              pyGet (extract_from_json_ld jl doc) "sku")) := by
  refine ⟨extract_from_json_ld_append, ?_, ?_⟩
  · intro d1 d2 k
    unfold pyGet updLd
    rw [List.find?_append]
    cases h : d2.find? (fun p => p.1 = k) <;> simp [h]
  · intro jl doc url
    refine ⟨?_, ?_, ?_⟩
    · intro h13
      have hne := truthyOpt_pyGet_ne_nil h13
      rw [parse_ean_eq, hne]
      simp only [Bool.not_false, if_true, pyOr, h13, if_pos]
    · intro h13 h14
      have hne := truthyOpt_pyGet_ne_nil h14
      rw [parse_ean_eq, hne]
      simp only [Bool.not_false, if_true, pyOr, h13, h14]
      simp [h13, h14]
    · intro h13 h14 hsku
      have hne := truthyOpt_pyGet_ne_nil hsku
      rw [parse_ean_eq, hne]
      simp [pyOr, h13, h14, hsku]

/-- Witness for C5: the gtin13 preference applied to a concrete document
whose merged JSON-LD carries both `gtin13` and `sku`. -/
theorem c5_json_ld_merge_witness :
    (parse_product_detail
        (fun s => if s = "A" then some (.dict [("@type", PyVal.str "Product"), ("gtin13", PyVal.str "111"), ("sku", PyVal.str "SK")]) else none)
        [Node.elem "script" [("type", "application/ld+json")] [Node.text "A"]]
        "u").ean = pyGet (extract_from_json_ld
        (fun s => if s = "A" then some (.dict [("@type", PyVal.str "Product"), ("gtin13", PyVal.str "111"), ("sku", PyVal.str "SK")]) else none)
        [Node.elem "script" [("type", "application/ld+json")] [Node.text "A"]]) "gtin13" := by
  exact (c5_json_ld_merge.2.2
      (fun s => if s = "A" then some (.dict [("@type", PyVal.str "Product"), ("gtin13", PyVal.str "111"), ("sku", PyVal.str "SK")]) else none)
      [Node.elem "script" [("type", "application/ld+json")] [Node.text "A"]]
      "u").1 (by with_unfolding_all rfl)

/-- Projection of the extracted `produto` field (definitional). -/
theorem parse_produto_eq (jl : String → Option PyVal) (doc : List Node) (url : String) :
    (parse_product_detail jl doc url).produto =
      (if !(extract_from_json_ld jl doc).isEmpty &&
          !truthyOpt ((titleEl doc).map (fun el => PyVal.str (getTextStrip el))) then
        pyGet (extract_from_json_ld jl doc) "name"
      else (titleEl doc).map (fun el => PyVal.str (getTextStrip el))) := rfl

/-- Projection of the extracted offer list (definitional). -/
theorem parse_sellers_eq (jl : String → Option PyVal) (doc : List Node) (url : String) :
    (parse_product_detail jl doc url).sellers = extractSellers doc := rfl

/-- C6 counterexample: on a document where no title selector matches and
no structured-data name exists, the extracted title is null; the literal
placeholder "Título não encontrado" appears nowhere in the code. -/
theorem c6_counterexample :
    (parse_product_detail (fun _ => none)
        [Node.elem "div" [("class", "x")] [Node.text "hello"]] "u").produto = none
    ∧ (none : Option PyVal) ≠ some (PyVal.str "Título não encontrado") :=
  ⟨by with_unfolding_all rfl, by simp⟩

/-- C6 (amended): when no title element matches any fallback selector and
the merged structured data carries no `name`, the extracted
`produto` is null (`None`), not a placeholder string. -/
theorem c6_title_fallback :
    ∀ (jl : String → Option PyVal) (doc : List Node) (url : String),
      titleEl doc = none →
      pyGet (extract_from_json_ld jl doc) "name" = none →
      (parse_product_detail jl doc url).produto = none := by
  intro jl doc url ht hn
  rw [parse_produto_eq, ht]
  cases he : (extract_from_json_ld jl doc).isEmpty <;> simp [truthyOpt, hn]

/-- Witness for C6: the amended theorem applied to a concrete document
without title selectors or structured data. -/
theorem c6_title_fallback_witness :
    titleEl [Node.elem "div" [("class", "x")] [Node.text "hello"]] = none
    ∧ (parse_product_detail (fun _ => none)
        [Node.elem "div" [("class", "x")] [Node.text "hello"]] "u2").produto = none :=
  ⟨by with_unfolding_all rfl,
   c6_title_fallback _ _ _ (by with_unfolding_all rfl) (by with_unfolding_all rfl)⟩

/-- C7 counterexample: a catalog row with a blank identifier but a
parseable own price yields the "EAN vazio" failure result WITHOUT the
own price (while the claim says sku, title and own price are carried
through regardless of success/failure). -/
theorem c7_counterexample :
    (processRow (fun _ => none) (fun _ => .ok none) (fun _ => none) (fun _ => .error "net")
        DELTA_GAP ALVO_SELLER ⟨"", "10,5", "T", "S"⟩).preco_atual = none
    ∧ pyFloat "10,5" = some (21 / 2)
    ∧ (processRow (fun _ => none) (fun _ => .ok none) (fun _ => none) (fun _ => .error "net")
        DELTA_GAP ALVO_SELLER ⟨"", "10,5", "T", "S"⟩).erro = some "EAN vazio" :=
  ⟨by with_unfolding_all rfl, by with_unfolding_all rfl, by with_unfolding_all rfl⟩

/-- C7 (amended): a blank-identifier catalog row short-circuits to the
"EAN vazio" failure result without consulting any oracle (no fetch), and
that result carries the row's sku and title but NOT its own price; all
other branches (resolution failure, fault, success) carry sku, title and
the parsed own price. -/
theorem c7_catalog_row :
    ∀ (jl : String → Option PyVal) (se : String → Except String (Option String))
        (pf : String → Option String)
        (f : String → Except String (List Node)) (g : ℚ) (a : String) (row : CatalogRow),
      ((processRow jl se pf f g a row).sku = some row.sku.trim)
      ∧ ((processRow jl se pf f g a row).titulo = some row.titulo.trim)
      ∧ (row.ean.trim = "" →
          processRow jl se pf f g a row =
            { sku := some row.sku.trim, titulo := some row.titulo.trim
              erro := some "EAN vazio" }
          ∧ ∀ (jl2 : String → Option PyVal) (se2 : String → Except String (Option String))
              (pf2 : String → Option String)
              (f2 : String → Except String (List Node)),
              processRow jl2 se2 pf2 f2 g a row = processRow jl se pf f g a row)
      ∧ (row.ean.trim ≠ "" →
          (processRow jl se pf f g a row).preco_atual = pyFloat row.preco_atual) := by
  intro jl se pf f g a row
  by_cases he : row.ean.trim = ""
  · refine ⟨?_, ?_, fun _ => ⟨?_, ?_⟩, fun hne => absurd he hne⟩
    · simp [processRow, he]
    · simp [processRow, he]
    · simp [processRow, he]
    · intro jl2 se2 pf2 f2
      simp [processRow, he]
  · have hrw : ∀ (jl' : String → Option PyVal) (se' : String → Except String (Option String))
        (pf' : String → Option String) (f' : String → Except String (List Node)),
        processRow jl' se' pf' f' g a row =
          (match se' row.ean.trim with
          | .error e =>
              { sku := some row.sku.trim, ean := some (.str row.ean.trim)
                titulo := some row.titulo.trim
                preco_atual := pyFloat row.preco_atual, erro := some e }
          | .ok none =>
              { sku := some row.sku.trim, ean := some (.str row.ean.trim)
                titulo := some row.titulo.trim
                preco_atual := pyFloat row.preco_atual
                erro := some "Produto não encontrado na busca" }
          | .ok (some prodUrl) =>
              match scrape_product_by_url jl' pf' f' g a prodUrl (pyFloat row.preco_atual) with
              | .error e =>
                  { sku := some row.sku.trim, ean := some (.str row.ean.trim)
                    titulo := some row.titulo.trim
                    preco_atual := pyFloat row.preco_atual, erro := some e }
              | .ok r =>
                  { r with sku := some row.sku.trim
                           ean := pyOr r.ean (some (.str row.ean.trim))
                           titulo := some row.titulo.trim
                           preco_atual := pyFloat row.preco_atual }) := by
      intro jl' se' pf' f'
      simp only [processRow, he, if_neg he, if_false]
    refine ⟨?_, ?_, fun h0 => absurd h0 he, fun _ => ?_⟩ <;>
      · rw [hrw jl se pf f]
        cases hse : se row.ean.trim with
        | error e => rfl
        | ok o =>
            cases o with
            | none => rfl
            | some purl =>
                simp only []
                cases scrape_product_by_url jl pf f g a purl (pyFloat row.preco_atual) <;> rfl

/-- Witness for C7: the amended theorem at a blank row and a non-blank
row. -/
theorem c7_catalog_row_witness :
    (processRow (fun _ => none) (fun _ => .ok none) (fun _ => none) (fun _ => .error "net")
        DELTA_GAP ALVO_SELLER ⟨" ", "1,5", "T2", "S2"⟩ =
      { sku := some "S2", titulo := some "T2", erro := some "EAN vazio" })
    ∧ ((processRow (fun _ => none) (fun _ => .ok none) (fun _ => none) (fun _ => .error "net")
        DELTA_GAP ALVO_SELLER ⟨"789", "1,5", "T2", "S2"⟩).preco_atual = pyFloat "1,5") := by
  constructor
  · have h := ((c7_catalog_row (fun _ => none) (fun _ => .ok none) (fun _ => none)
        (fun _ => .error "net")
        DELTA_GAP ALVO_SELLER ⟨" ", "1,5", "T2", "S2"⟩).2.2.1 (by with_unfolding_all rfl)).1
    exact h.trans (by with_unfolding_all rfl)
  · exact (c7_catalog_row (fun _ => none) (fun _ => .ok none) (fun _ => none)
        (fun _ => .error "net")
        DELTA_GAP ALVO_SELLER ⟨"789", "1,5", "T2", "S2"⟩).2.2.2 (by with_unfolding_all decide)

/-- C8: every offer recorded by extraction — from a seller card or from
the page-level single-offer fallback — carries a successfully normalized
price, and that price is nonnegative; a card with no price element, or
whose price text fails to normalize, produces no offer at all — it is
silently omitted (the record's offer list is exactly the per-card
`filterMap` when any card yields an offer) and in particular is never
recorded as a zero-price offer.  Concretely, a document with one
parsable-price card and one unparsable-price card yields exactly the one
offer of the parsable card. -/
theorem c8_offer_prices_normalized :
    (∀ (jl : String → Option PyVal) (doc : List Node) (url : String) (o : SellerOffer),
      o ∈ (parse_product_detail jl doc url).sellers →
      0 ≤ o.price ∧ ∃ t : String, clean_price t = some o.price)
    ∧ (∀ b : Node, sellerPriceEl b = none → processBlock b = none)
    ∧ (∀ (b el : Node), sellerPriceEl b = some el →
        clean_price (getTextStrip el) = none → processBlock b = none)
    ∧ (∀ (jl : String → Option PyVal) (doc : List Node) (url : String),
        (sellerBlocks doc).filterMap processBlock ≠ [] →
        (parse_product_detail jl doc url).sellers =
          (sellerBlocks doc).filterMap processBlock)
    ∧ ((parse_product_detail (fun _ => none)
          [Node.elem "div" [("class", "seller-card")]
            [Node.elem "span" [("class", "seller-name")] [Node.text "S1"],
             Node.elem "span" [("class", "seller-price")] [Node.text "10,00"]],
           Node.elem "div" [("class", "seller-card")]
            [Node.elem "span" [("class", "seller-name")] [Node.text "S2"],
             Node.elem "span" [("class", "seller-price")] [Node.text "abc"]]] "u").sellers
        = [⟨"S1", 10⟩]) := by
  refine ⟨?_, ?_, ?_, ?_, by with_unfolding_all rfl⟩
  · intro jl doc url o ho
    rw [parse_sellers_eq] at ho
    unfold extractSellers at ho
    simp only [] at ho
    split at ho
    · split at ho
      · rename_i el _
        split at ho
        · rename_i v hv
          rw [List.mem_singleton] at ho
          subst ho
          exact ⟨clean_price_nonneg hv, ⟨_, hv⟩⟩
        · exact absurd ho (List.not_mem_nil o)
      · exact absurd ho (List.not_mem_nil o)
    · obtain ⟨b, hb, hpb⟩ := List.mem_filterMap.mp ho
      unfold processBlock at hpb
      simp only [] at hpb
      split at hpb
      · rename_i el _
        cases hv : clean_price (getTextStrip el) with
        | none => rw [hv] at hpb; exact absurd hpb (by simp)
        | some v =>
            rw [hv] at hpb
            simp at hpb
            have : o.price = v := by rw [← hpb]
            rw [this]
            exact ⟨clean_price_nonneg hv, ⟨_, hv⟩⟩
      · exact absurd hpb (by simp)
  · intro b h
    simp [processBlock, h]
  · intro b el h hv
    simp [processBlock, h, hv]
  · intro jl doc url hne
    rw [parse_sellers_eq]
    unfold extractSellers
    have hempty : ((sellerBlocks doc).filterMap processBlock).isEmpty = false := by
      cases h : (sellerBlocks doc).filterMap processBlock with
      | nil => exact absurd h hne
      | cons p ps => simp
    simp only [hempty, Bool.false_eq_true, if_false]

/-- Witness for C8: the membership conjunct applied to a concrete
document with one seller card whose price text parses, and the omission
conjunct applied to a concrete card whose price text does not parse. -/
theorem c8_offer_prices_normalized_witness :
    (0 ≤ (⟨"Desconhecido", 10⟩ : SellerOffer).price
      ∧ ∃ t : String, clean_price t = some (⟨"Desconhecido", 10⟩ : SellerOffer).price)
    ∧ processBlock (Node.elem "div" [("class", "seller-card")]
        [Node.elem "span" [("class", "seller-name")] [Node.text "S2"],
         Node.elem "span" [("class", "seller-price")] [Node.text "abc"]]) = none := by
  constructor
  · have hs : (parse_product_detail (fun _ => none)
        [Node.elem "div" [("data-seller", "1")]
          [Node.elem "span" [("class", "price")] [Node.text "10,00"]]] "u").sellers
        = [⟨"Desconhecido", 10⟩] := by with_unfolding_all rfl
    exact c8_offer_prices_normalized.1 (fun _ => none) _ "u" _
      (by rw [hs]; exact List.mem_singleton_self _)
  · exact c8_offer_prices_normalized.2.2.1
      (Node.elem "div" [("class", "seller-card")]
        [Node.elem "span" [("class", "seller-name")] [Node.text "S2"],
         Node.elem "span" [("class", "seller-price")] [Node.text "abc"]])
      (Node.elem "span" [("class", "seller-price")] [Node.text "abc"])
      (by with_unfolding_all rfl)
      (by with_unfolding_all rfl)

/-- C10: a seller card whose price normalizes but whose name matches none
of the name fallback selectors is still recorded, with the default seller
name "Desconhecido". -/
theorem c10_unknown_seller_default :
    ∀ (jl : String → Option PyVal) (doc : List Node) (url : String) (b el : Node) (v : ℚ),
      b ∈ sellerBlocks doc →
      sellerNameEl b = none →
      sellerPriceEl b = some el →
      clean_price (getTextStrip el) = some v →
      (⟨"Desconhecido", v⟩ : SellerOffer) ∈ (parse_product_detail jl doc url).sellers := by
  intro jl doc url b el v hb hn hp hv
  have hpb : processBlock b = some ⟨"Desconhecido", v⟩ := by
    unfold processBlock
    rw [hn, hp]
    simp [hv]
  have hmem : (⟨"Desconhecido", v⟩ : SellerOffer) ∈ (sellerBlocks doc).filterMap processBlock :=
    List.mem_filterMap.mpr ⟨b, hb, hpb⟩
  rw [parse_sellers_eq]
  unfold extractSellers
  have hne : ((sellerBlocks doc).filterMap processBlock).isEmpty = false := by
    cases h : (sellerBlocks doc).filterMap processBlock with
    | nil => rw [h] at hmem; exact absurd hmem (List.not_mem_nil _)
    | cons p ps => simp
  simp only [hne, Bool.false_eq_true, if_false]
  exact hmem

/-- Witness for C10: the theorem applied to a concrete card reached via
the `[data-seller]` selector, containing only a `.price`-classed child. -/
theorem c10_unknown_seller_default_witness :
    (⟨"Desconhecido", 10⟩ : SellerOffer) ∈
      (parse_product_detail (fun _ => none)
        [Node.elem "div" [("data-seller", "1")]
          [Node.elem "span" [("class", "price")] [Node.text "10,00"]]] "u3").sellers := by
  have hb : sellerBlocks
      [Node.elem "div" [("data-seller", "1")]
        [Node.elem "span" [("class", "price")] [Node.text "10,00"]]]
      = [Node.elem "div" [("data-seller", "1")]
          [Node.elem "span" [("class", "price")] [Node.text "10,00"]]] := by
    with_unfolding_all rfl
  exact c10_unknown_seller_default (fun _ => none) _ "u3"
    (Node.elem "div" [("data-seller", "1")]
      [Node.elem "span" [("class", "price")] [Node.text "10,00"]])
    (Node.elem "span" [("class", "price")] [Node.text "10,00"]) 10
    (by rw [hb]; exact List.mem_singleton_self _)
    (by with_unfolding_all rfl)
    (by with_unfolding_all rfl)
    (by with_unfolding_all rfl)

/-! ### Digit-string round-trip lemmas (for C9) -/

/-- Folding the digit evaluation from an arbitrary accumulator. -/
theorem digitsVal_foldl_acc (l : List Char) : ∀ a : ℕ,
    l.foldl (fun a c => 10 * a + (c.toNat - 48)) a =
      a * 10 ^ l.length + l.foldl (fun a c => 10 * a + (c.toNat - 48)) 0 := by
  induction l with
  | nil => intro a; simp
  | cons c cs ih =>
      intro a
      show cs.foldl _ (10 * a + (c.toNat - 48)) = _
      rw [ih (10 * a + (c.toNat - 48)),
        show (c :: cs).foldl (fun a c => 10 * a + (c.toNat - 48)) 0 =
          cs.foldl (fun a c => 10 * a + (c.toNat - 48)) (10 * 0 + (c.toNat - 48)) from rfl,
        ih (10 * 0 + (c.toNat - 48)), List.length_cons, pow_succ]
      ring

/-- The value of a cons cell of digits. -/
theorem digitsVal_cons (c : Char) (l : List Char) :
    digitsVal (c :: l) = (c.toNat - 48) * 10 ^ l.length + digitsVal l := by
  unfold digitsVal
  rw [show (c :: l).foldl (fun a c => 10 * a + (c.toNat - 48)) 0 =
    l.foldl (fun a c => 10 * a + (c.toNat - 48)) (10 * 0 + (c.toNat - 48)) from rfl,
    digitsVal_foldl_acc]
  norm_num

/-- The value of an appended digit string. -/
theorem digitsVal_append (l1 l2 : List Char) :
    digitsVal (l1 ++ l2) = digitsVal l1 * 10 ^ l2.length + digitsVal l2 := by
  unfold digitsVal
  rw [List.foldl_append, digitsVal_foldl_acc]

/-- Leading zeros contribute nothing. -/
theorem digitsVal_replicate_zero (j : ℕ) : digitsVal (List.replicate j '0') = 0 := by
  induction j with
  | zero => rfl
  | succ j ih =>
      rw [List.replicate_succ, digitsVal_cons, ih]
      have h0 : '0'.toNat - 48 = 0 := by decide
      rw [h0]
      simp

/-- The character of a decimal digit is a digit character. -/
theorem digitChar_isDigit {d : ℕ} (h : d < 10) : (digitChar d).isDigit = true := by
  interval_cases d <;> decide

/-- Code of the character of a decimal digit. -/
theorem digitChar_toNat {d : ℕ} (h : d < 10) : (digitChar d).toNat = 48 + d := by
  interval_cases d <;> decide

/-- All characters produced by `natToCharsAux` are digits (given digit
accumulators). -/
theorem natToCharsAux_digits : ∀ (f n : ℕ) (acc : List Char),
    (∀ c ∈ acc, c.isDigit = true) → ∀ c ∈ natToCharsAux f n acc, c.isDigit = true := by
  intro f
  induction f with
  | zero => intro n acc hacc c hc; exact hacc c hc
  | succ f ih =>
      intro n acc hacc c hc
      unfold natToCharsAux at hc
      split at hc
      · rcases List.mem_cons.mp hc with hceq | hcm
        · rw [hceq]; exact digitChar_isDigit (by omega)
        · exact hacc c hcm
      · refine ih (n / 10) _ ?_ c hc
        intro c2 hc2
        rcases List.mem_cons.mp hc2 with hceq | hcm
        · rw [hceq]; exact digitChar_isDigit (Nat.mod_lt n (by omega))
        · exact hacc c2 hcm

/-- Value computed by `natToCharsAux` (with enough fuel). -/
theorem natToCharsAux_val : ∀ (f n : ℕ) (acc : List Char), n < 10 ^ f →
    digitsVal (natToCharsAux f n acc) = n * 10 ^ acc.length + digitsVal acc := by
  intro f
  induction f with
  | zero =>
      intro n acc h
      have : n = 0 := by simpa using h
      subst this
      simp [natToCharsAux]
  | succ f ih =>
      intro n acc h
      unfold natToCharsAux
      split
      · rw [digitsVal_cons, digitChar_toNat (by omega)]
        have he : 48 + n - 48 = n := by omega
        rw [he]
      · rename_i hge
        have hdiv : n / 10 < 10 ^ f := by
          rw [Nat.div_lt_iff_lt_mul (by omega)]
          calc n < 10 ^ (f + 1) := h
            _ = 10 ^ f * 10 := by rw [pow_succ]
        rw [ih (n / 10) _ hdiv, digitsVal_cons, digitChar_toNat (Nat.mod_lt n (by omega)),
          List.length_cons, pow_succ]
        have he : 48 + n % 10 - 48 = n % 10 := by omega
        rw [he]
        have hmod : 10 * (n / 10) + n % 10 = n := Nat.div_add_mod n 10
        conv_rhs => rw [← hmod]
        ring

/-- Result length of `natToCharsAux` never shrinks below the accumulator. -/
theorem natToCharsAux_len_ge : ∀ (f n : ℕ) (acc : List Char),
    acc.length ≤ (natToCharsAux f n acc).length := by
  intro f
  induction f with
  | zero => intro n acc; simp [natToCharsAux]
  | succ f ih =>
      intro n acc
      unfold natToCharsAux
      split
      · simp
      · calc acc.length ≤ (digitChar (n % 10) :: acc).length := by simp
          _ ≤ _ := ih (n / 10) _

/-- Result length of `natToCharsAux`, bounded by the magnitude of `n`. -/
theorem natToCharsAux_len_le : ∀ (f n : ℕ) (acc : List Char) (g : ℕ), n < 10 ^ g → 1 ≤ g →
    (natToCharsAux f n acc).length ≤ g + acc.length := by
  intro f
  induction f with
  | zero => intro n acc g hg hg1; simp [natToCharsAux]
  | succ f ih =>
      intro n acc g hg hg1
      unfold natToCharsAux
      split
      · simp; omega
      · rename_i hge
        have hg2 : 2 ≤ g := by
          by_contra hcon
          have : g = 1 := by omega
          subst this
          simp at hg
          omega
        have hdiv : n / 10 < 10 ^ (g - 1) := by
          rw [Nat.div_lt_iff_lt_mul (by omega)]
          calc n < 10 ^ g := hg
            _ = 10 ^ (g - 1) * 10 := by
              rw [← pow_succ]
              congr 1
              omega
        have := ih (n / 10) (digitChar (n % 10) :: acc) (g - 1) hdiv (by omega)
        simp at this
        omega

/-- The digit string of `n` evaluates back to `n`. -/
theorem natToChars_val (n : ℕ) : digitsVal (natToChars n) = n := by
  unfold natToChars
  rw [natToCharsAux_val (n + 1) n []
    (lt_of_lt_of_le (Nat.lt_pow_self (by omega) n) (Nat.pow_le_pow_right (by omega) (by omega)))]
  simp [digitsVal]

/-- The digit string of `n` consists of digit characters. -/
theorem natToChars_digits (n : ℕ) : ∀ c ∈ natToChars n, c.isDigit = true :=
  natToCharsAux_digits (n + 1) n [] (by simp)

/-- The digit string of `n` is never empty. -/
theorem natToChars_ne_nil (n : ℕ) : natToChars n ≠ [] := by
  unfold natToChars natToCharsAux
  split
  · simp
  · intro hcon
    have := natToCharsAux_len_ge n (n / 10) [digitChar (n % 10)]
    rw [hcon] at this
    simp at this

/-- The digit string of `n < 10 ^ k` has at most `k` digits (`1 ≤ k`). -/
theorem natToChars_len_le {n k : ℕ} (h : n < 10 ^ k) (hk : 1 ≤ k) :
    (natToChars n).length ≤ k := by
  have := natToCharsAux_len_le (n + 1) n [] k h hk
  simpa using this

/-- `takeWhile`/`dropWhile` through a satisfying prefix up to a failing
separator. -/
theorem takeWhile_dropWhile_sep {p : Char → Bool} : ∀ (l1 : List Char),
    (∀ c ∈ l1, p c = true) → ∀ (c : Char), p c = false → ∀ (l2 : List Char),
    (l1 ++ c :: l2).takeWhile p = l1 ∧ (l1 ++ c :: l2).dropWhile p = c :: l2 := by
  intro l1
  induction l1 with
  | nil =>
      intro _ c hc l2
      constructor
      · simp [List.takeWhile_cons, hc]
      · simp [List.dropWhile_cons, hc]
  | cons x xs ih =>
      intro hl c hc l2
      have hx : p x = true := hl x (by simp)
      have hrest := ih (fun a ha => hl a (by simp [ha])) c hc l2
      constructor
      · simp only [List.cons_append, List.takeWhile_cons, hx, if_true]
        rw [hrest.1]
      · simp only [List.cons_append, List.dropWhile_cons, hx, if_true]
        exact hrest.2

/-- The comma-to-period map is the identity on comma-free text. -/
theorem map_commaToDot_id : ∀ (l : List Char), ',' ∉ l →
    l.map (fun c => if c = ',' then '.' else c) = l := by
  intro l
  induction l with
  | nil => intro _; rfl
  | cons x xs ih =>
      intro h
      have hx : ¬(x = ',') := by
        intro hx
        apply h
        rw [← hx]
        exact List.mem_cons_self x xs
      simp only [List.map_cons, if_neg hx]
      rw [ih (fun hm => h (List.mem_cons_of_mem x hm))]

/-- `clean_price` on a rendered digit string `ip.fp` parses back the
rendered decimal value. -/
theorem clean_price_digit_string (ip fp : List Char)
    (hip : ip ≠ []) (hipd : ∀ c ∈ ip, c.isDigit = true) (hfpd : ∀ c ∈ fp, c.isDigit = true) :
    clean_price ⟨ip ++ '.' :: fp⟩ =
      some ((digitsVal ip : ℚ) + (digitsVal fp : ℚ) / 10 ^ fp.length) := by
  have hdotd : ('.' : Char).isDigit = false := by decide
  have hcommad : (',' : Char).isDigit = false := by decide
  have hlne : ip ++ '.' :: fp ≠ [] := by simp
  have hs : (⟨ip ++ '.' :: fp⟩ : String) ≠ "" := by
    intro hcon
    exact hlne (congrArg String.data hcon)
  have hmem : ∀ c ∈ ip ++ '.' :: fp, (c.isDigit || c = ',' || c = '.') = true := by
    intro c hc
    rcases List.mem_append.mp hc with hcip | hcfp
    · simp [hipd c hcip]
    · rcases List.mem_cons.mp hcfp with hceq | hcm
      · simp [hceq]
      · simp [hfpd c hcm]
  have hfilter : (ip ++ '.' :: fp).filter (fun c => c.isDigit || c = ',' || c = '.') =
      ip ++ '.' :: fp := List.filter_eq_self.mpr hmem
  have hnocomma : (',' : Char) ∉ ip ++ '.' :: fp := by
    intro hc
    rcases List.mem_append.mp hc with hcip | hcfp
    · have := hipd _ hcip
      rw [hcommad] at this
      exact absurd this (by simp)
    · rcases List.mem_cons.mp hcfp with hceq | hcm
      · exact absurd hceq (by decide)
      · have := hfpd _ hcm
        rw [hcommad] at this
        exact absurd this (by simp)
  have hccount : (ip ++ '.' :: fp).count ',' = 0 := List.count_eq_zero.mpr hnocomma
  have hdotip : ('.' : Char) ∉ ip := by
    intro hc
    have := hipd _ hc
    rw [hdotd] at this
    exact absurd this (by simp)
  have hdotfp : ('.' : Char) ∉ fp := by
    intro hc
    have := hfpd _ hc
    rw [hdotd] at this
    exact absurd this (by simp)
  have hdotcount : (ip ++ '.' :: fp).count '.' = 1 := by
    rw [List.count_append, List.count_eq_zero.mpr hdotip, List.count_cons]
    rw [List.count_eq_zero.mpr hdotfp]
    simp
  have hall : (ip ++ '.' :: fp).all (fun c => c.isDigit || c = '.') = true := by
    rw [List.all_eq_true]
    intro c hc
    rcases List.mem_append.mp hc with hcip | hcfp
    · simp [hipd c hcip]
    · rcases List.mem_cons.mp hcfp with hceq | hcm
      · simp [hceq]
      · simp [hfpd c hcm]
  have hany : (ip ++ '.' :: fp).any (fun c => c.isDigit) = true := by
    rw [List.any_eq_true]
    obtain ⟨c, hc⟩ := List.exists_mem_of_ne_nil ip hip
    exact ⟨c, List.mem_append_left _ hc, hipd c hc⟩
  have hsep := takeWhile_dropWhile_sep (p := fun c => decide (c ≠ '.')) ip
    (fun c hc => by
      simp only [decide_eq_true_eq]
      intro hcon
      exact hdotip (hcon ▸ hc))
    '.' (by simp) fp
  unfold clean_price
  rw [if_neg hs]
  simp only []
  rw [show (⟨ip ++ '.' :: fp⟩ : String).toList = ip ++ '.' :: fp from rfl, hfilter,
    if_neg hlne]
  have hcond : ((ip ++ '.' :: fp).count ',' = 1 && decide (1 ≤ (ip ++ '.' :: fp).count '.'))
      = false := by
    rw [hccount]
    simp
  rw [hcond]
  simp only [Bool.false_eq_true, if_false]
  rw [map_commaToDot_id _ hnocomma]
  unfold parseNum
  rw [if_pos (by rw [hall, hdotcount, hany]; simp)]
  rw [hsep.1, hsep.2]
  simp

/-- For decimal fractions, `decExpLen` really finds an exponent clearing
the denominator. -/
theorem decExpLen_den {v : ℚ} (N m : ℕ) (hv : v = (N : ℚ) / 10 ^ m) :
    (v * 10 ^ decExpLen v).den = 1 := by
  have hdvd : v.den ∣ 10 ^ m := by
    have h1 : v = Rat.divInt (N : ℤ) ((10 : ℤ) ^ m) := by
      rw [Rat.divInt_eq_div, hv]
      push_cast
      ring
    have h2 := Rat.den_dvd (N : ℤ) ((10 : ℤ) ^ m)
    rw [← h1] at h2
    have h3 : ((10 : ℤ) ^ m) = ((10 ^ m : ℕ) : ℤ) := by push_cast; ring
    rw [h3] at h2
    exact_mod_cast h2
  have h10 : (10 : ℕ) ^ m = 2 ^ m * 5 ^ m := by
    rw [← mul_pow]
    norm_num
  rw [h10] at hdvd
  obtain ⟨x, y, hx2, hy5, hxy⟩ := Nat.dvd_mul.mp hdvd
  obtain ⟨a, ha, hxa⟩ := (Nat.dvd_prime_pow Nat.prime_two).mp hx2
  obtain ⟨b, hb, hyb⟩ := (Nat.dvd_prime_pow Nat.prime_five).mp hy5
  have hden_pos : 0 < v.den := v.pos
  have hdvd2 : v.den ∣ 10 ^ max a b := by
    rw [← hxy, hxa, hyb, show (10 : ℕ) ^ max a b = 2 ^ max a b * 5 ^ max a b from by
      rw [← mul_pow]; norm_num]
    exact mul_dvd_mul (pow_dvd_pow 2 (le_max_left a b)) (pow_dvd_pow 5 (le_max_right a b))
  have hda : (2 : ℕ) ^ a ∣ v.den := by
    rw [← hxy, hxa]
    exact dvd_mul_right _ _
  have hdb : (5 : ℕ) ^ b ∣ v.den := by
    rw [← hxy, hyb]
    exact dvd_mul_left _ _
  have hle : max a b ≤ v.den := by
    have h2a : a ≤ v.den :=
      le_trans (le_of_lt (Nat.lt_two_pow a)) (Nat.le_of_dvd hden_pos hda)
    have h2b : b ≤ v.den :=
      le_trans (le_of_lt (Nat.lt_pow_self (by omega) b)) (Nat.le_of_dvd hden_pos hdb)
    exact max_le h2a h2b
  have hP : (v * 10 ^ max a b).den = 1 := by
    obtain ⟨c, hc⟩ := hdvd2
    have hden_ne : ((v.den : ℚ)) ≠ 0 := Nat.cast_ne_zero.mpr (by omega)
    have hvd : v * (v.den : ℚ) = (v.num : ℚ) := by
      have hvd0 := Rat.num_div_den v
      rw [div_eq_iff hden_ne] at hvd0
      exact hvd0.symm
    have h2 : v * 10 ^ max a b = ((v.num * (c : ℤ) : ℤ) : ℚ) := by
      have h1 : ((10 : ℚ)) ^ max a b = ((v.den : ℚ)) * (c : ℚ) := by
        exact_mod_cast congrArg (fun t : ℕ => (t : ℚ)) hc
      rw [h1]
      push_cast
      calc v * ((v.den : ℚ) * (c : ℚ)) = v * (v.den : ℚ) * (c : ℚ) := by ring
        _ = (v.num : ℚ) * (c : ℚ) := by rw [hvd]
    rw [h2, Rat.den_intCast]
  unfold decExpLen
  cases hfind : (List.range (v.den + 1)).find? (fun k => (v * 10 ^ k).den = 1) with
  | none =>
      exfalso
      have hnone := List.find?_eq_none.mp hfind (max a b) (List.mem_range.mpr (by omega))
      simp only [decide_eq_true_eq] at hnone
      exact hnone hP
  | some k =>
      have hk := List.find?_some hfind
      simp only [decide_eq_true_eq] at hk
      simpa using hk

/-- C9: `clean_price` is deterministic (definitionally, it is a pure
function) and idempotent on convertible numeral strings: re-parsing the
standard textual rendering of a parsed value yields the same value. -/
theorem c9_normalize_idempotent :
    ∀ (s : String) (v : ℚ), clean_price s = some v →
      clean_price (pyFormat v) = some v := by
  intro s v h
  obtain ⟨t, ht⟩ := clean_price_parseNum h
  have hv0 : 0 ≤ v := parseNum_nonneg ht
  obtain ⟨N, m, hNm⟩ := parseNum_decimal ht
  have hden : (v * 10 ^ decExpLen v).den = 1 := decExpLen_den N m hNm
  have hnum0 : (0 : ℤ) ≤ (v * 10 ^ decExpLen v).num :=
    Rat.num_nonneg.mpr (by positivity)
  have hcast : (((v * 10 ^ decExpLen v).num.toNat : ℤ)) = (v * 10 ^ decExpLen v).num :=
    Int.toNat_of_nonneg hnum0
  have hvk : (((v * 10 ^ decExpLen v).num.toNat : ℚ)) = v * 10 ^ decExpLen v := by
    rw [show (((v * 10 ^ decExpLen v).num.toNat : ℚ)) =
        ((((v * 10 ^ decExpLen v).num.toNat : ℤ)) : ℚ) from by push_cast; ring, hcast]
    exact Rat.coe_int_num_of_den_eq_one hden
  have hv2 : v = (((v * 10 ^ decExpLen v).num.toNat : ℚ)) / 10 ^ decExpLen v := by
    rw [hvk]
    field_simp
  have hfmt : pyFormat v = ⟨natToChars ((v * 10 ^ decExpLen v).num.toNat / 10 ^ decExpLen v)
      ++ '.' :: (if decExpLen v = 0 then ['0']
          else List.replicate
            (decExpLen v -
              (natToChars ((v * 10 ^ decExpLen v).num.toNat % 10 ^ decExpLen v)).length) '0'
            ++ natToChars ((v * 10 ^ decExpLen v).num.toNat % 10 ^ decExpLen v))⟩ := rfl
  rw [hfmt]
  by_cases hk0 : decExpLen v = 0
  · rw [hk0]
    rw [if_pos rfl]
    rw [clean_price_digit_string _ _ (natToChars_ne_nil _) (natToChars_digits _)
      (by intro c hc; rw [List.mem_singleton] at hc; rw [hc]; decide)]
    rw [natToChars_val]
    have h0 : digitsVal ['0'] = 0 := by decide
    rw [h0]
    have hnum0v : (0 : ℤ) ≤ v.num := Rat.num_nonneg.mpr hv0
    rw [hv2, hk0]
    norm_num
    omega
  · have hk1 : 1 ≤ decExpLen v := by omega
    have hpow_pos : 0 < 10 ^ decExpLen v := by positivity
    have hlt : (v * 10 ^ decExpLen v).num.toNat % 10 ^ decExpLen v < 10 ^ decExpLen v :=
      Nat.mod_lt _ hpow_pos
    have hlen : (natToChars ((v * 10 ^ decExpLen v).num.toNat % 10 ^ decExpLen v)).length
        ≤ decExpLen v := natToChars_len_le hlt hk1
    rw [if_neg hk0]
    rw [clean_price_digit_string _ _ (natToChars_ne_nil _) (natToChars_digits _)
      (by
        intro c hc
        rcases List.mem_append.mp hc with hcr | hcn
        · rw [List.eq_of_mem_replicate hcr]
          decide
        · exact natToChars_digits _ c hcn)]
    rw [digitsVal_append, digitsVal_replicate_zero, natToChars_val, natToChars_val]
    rw [List.length_append, List.length_replicate]
    have hlen2 : decExpLen v -
        (natToChars ((v * 10 ^ decExpLen v).num.toNat % 10 ^ decExpLen v)).length +
        (natToChars ((v * 10 ^ decExpLen v).num.toNat % 10 ^ decExpLen v)).length
        = decExpLen v := by omega
    rw [hlen2]
    simp only [zero_mul, zero_add]
    have hsplit : 10 ^ decExpLen v * ((v * 10 ^ decExpLen v).num.toNat / 10 ^ decExpLen v)
        + (v * 10 ^ decExpLen v).num.toNat % 10 ^ decExpLen v
        = (v * 10 ^ decExpLen v).num.toNat := Nat.div_add_mod _ _
    set K := decExpLen v with hKdef
    set n := (v * 10 ^ K).num.toNat with hndef
    refine congrArg some ?_
    rw [hv2]
    have hQ : ((10 : ℚ)) ^ K ≠ 0 := by positivity
    rw [eq_div_iff hQ, add_mul, div_mul_cancel₀ _ hQ]
    have hsplitQ : ((10 : ℚ)) ^ K * ((n / 10 ^ K : ℕ) : ℚ) + ((n % 10 ^ K : ℕ) : ℚ)
        = (n : ℚ) := by
      exact_mod_cast congrArg (fun t : ℕ => (t : ℚ)) hsplit
    linarith [hsplitQ]

/-- Witness for C9: idempotence applied to the parse of `"19,90"`. -/
theorem c9_normalize_idempotent_witness :
    clean_price (pyFormat (199 / 10)) = some (199 / 10) :=
  c9_normalize_idempotent "19,90" (199 / 10) (by with_unfolding_all rfl)

end Martins
